import Mathlib

/- Verification of the LatexGenCpp document-generation library.
   The C++ sources (src/latexgen.cpp together with the class declarations in
   latexgen.h) are shallowly embedded below: every std::string is modelled as a
   list of characters, std::map as a sorted association list, std::set as a
   sorted duplicate-free list, and each const rendering method as a pure
   function of the object state. -/

namespace LatexGen

/- Strings are modelled as lists of characters.  UTF-8 byte sequences of
   distinct code points never overlap, and every delimiter the code searches
   for is pure ASCII, so character-level scanning is faithful to the byte-level
   scanning done by std::string. -/
abbrev Str := List Char

def str (s : String) : Str := s.data

/- Substring utilities mirroring std::string::compare / find != npos tests.
   isPre reimplements List.isPrefixOf so that all reductions are definitional. -/

def isPre : Str → Str → Bool
  | [], _ => true
  | _ :: _, [] => false
  | a :: as, b :: bs => a == b && isPre as bs

def hasPre (p s : Str) : Bool := isPre p s

def hasSuf (p s : Str) : Bool := isPre p.reverse s.reverse

def hasSub (p : Str) : Str → Bool
  | [] => isPre p []
  | c :: t => isPre p (c :: t) || hasSub p t

theorem isPre_append_self (p t : Str) : isPre p (p ++ t) = true := by
  induction p with
  | nil => rfl
  | cons a as ih => simp [isPre, ih]

theorem isPre_extend (p s u : Str) (h : isPre p s = true) :
    isPre p (s ++ u) = true := by
  induction p generalizing s with
  | nil => rfl
  | cons a as ih =>
    cases s with
    | nil => simp [isPre] at h
    | cons b bs =>
      simp [isPre] at h ⊢
      exact ⟨h.1, ih bs h.2⟩

theorem hasPre_append (p t : Str) : hasPre p (p ++ t) = true :=
  isPre_append_self p t

theorem hasSuf_refl (p : Str) : hasSuf p p = true := by
  have := isPre_append_self p.reverse []
  simpa [hasSuf] using this

theorem hasSuf_append_left (p s t : Str) (h : hasSuf p s = true) :
    hasSuf p (t ++ s) = true := by
  unfold hasSuf at h ⊢
  rw [List.reverse_append]
  exact isPre_extend _ _ _ h

theorem hasSuf_term (p t : Str) : hasSuf p (t ++ p) = true :=
  hasSuf_append_left p p t (hasSuf_refl p)

theorem hasSub_here (p t : Str) : hasSub p (p ++ t) = true := by
  cases h : p ++ t with
  | nil =>
    have hp : p = [] := by
      cases p with
      | nil => rfl
      | cons a as => simp at h
    simp [hasSub, hp, isPre]
  | cons c r =>
    have : isPre p (c :: r) = true := h ▸ isPre_append_self p t
    simp [hasSub, this]

theorem hasSub_append_left (p s t : Str) (h : hasSub p s = true) :
    hasSub p (t ++ s) = true := by
  induction t with
  | nil => simpa using h
  | cons c u ih => simp [hasSub, ih]

theorem hasSub_intro (p a b s : Str) (h : s = a ++ (p ++ b)) : hasSub p s = true := by
  subst h
  exact hasSub_append_left p (p ++ b) a (hasSub_here p b)

/- Lexicographic order on character lists, modelling the byte-wise operator<
   of std::string used by std::map and std::set.  On UTF-8 data the code-point
   order coincides with the byte order. -/
def strLt : Str → Str → Bool
  | [], [] => false
  | [], _ :: _ => true
  | _ :: _, [] => false
  | a :: as, b :: bs => if a < b then true else if b < a then false else strLt as bs

theorem strLt_irrefl (a : Str) : strLt a a = false := by
  induction a with
  | nil => rfl
  | cons c t ih => simp [strLt, ih]

theorem strLt_asymm (a b : Str) (h : strLt a b = true) : strLt b a = false := by
  induction a generalizing b with
  | nil =>
    cases b with
    | nil => simp [strLt] at h
    | cons c t => rfl
  | cons c t ih =>
    cases b with
    | nil => simp [strLt] at h
    | cons d u =>
      by_cases h1 : c < d
      · have h2 : ¬ d < c := lt_asymm h1
        simp [strLt, h1, h2]
      · by_cases h2 : d < c
        · simp [strLt, h1, h2] at h
        · simp [strLt, h1, h2] at h ⊢
          exact ih u h

theorem strLt_eq_of_not (a b : Str) (h1 : strLt a b = false) (h2 : strLt b a = false) :
    a = b := by
  induction a generalizing b with
  | nil =>
    cases b with
    | nil => rfl
    | cons c t => simp [strLt] at h1
  | cons c t ih =>
    cases b with
    | nil => simp [strLt] at h2
    | cons d u =>
      by_cases hc : c < d
      · simp [strLt, hc] at h1
      · by_cases hd : d < c
        · simp [strLt, hd, lt_asymm hd] at h2
        · have hcd : c = d := le_antisymm (not_lt.mp hd) (not_lt.mp hc)
          subst hcd
          simp [strLt, hc] at h1 h2
          rw [ih u h1 h2]

theorem strLt_trans (a b c : Str) (h1 : strLt a b = true) (h2 : strLt b c = true) :
    strLt a c = true := by
  induction a generalizing b c with
  | nil =>
    cases c with
    | nil =>
      cases b with
      | nil => exact h1
      | cons d u => simp [strLt] at h2
    | cons d u => rfl
  | cons x xs ih =>
    cases b with
    | nil => simp [strLt] at h1
    | cons y ys =>
      cases c with
      | nil => simp [strLt] at h2
      | cons z zs =>
        by_cases hxy : x < y
        · by_cases hyz : y < z
          · simp [strLt, lt_trans hxy hyz]
          · by_cases hzy : z < y
            · simp [strLt, hyz, hzy] at h2
            · have : y = z := le_antisymm (not_lt.mp hzy) (not_lt.mp hyz)
              subst this
              simp [strLt, hxy]
        · by_cases hyx : y < x
          · simp [strLt, hxy, hyx] at h1
          · have hxyeq : x = y := le_antisymm (not_lt.mp hyx) (not_lt.mp hxy)
            subst hxyeq
            simp [strLt, hxy] at h1
            by_cases hyz : x < z
            · simp [strLt, hyz]
            · by_cases hzy : z < x
              · simp [strLt, hyz, hzy] at h2
              · have : x = z := le_antisymm (not_lt.mp hzy) (not_lt.mp hyz)
                subst this
                simp [strLt, hyz] at h2 ⊢
                exact ih ys zs h1 h2

/- std::map<std::string, std::string> is modelled as an association list sorted
   by strLt on the key; operator[]=v inserts or overwrites in key order. -/
def mapInsert (k v : Str) : List (Str × Str) → List (Str × Str)
  | [] => [(k, v)]
  | (k2, v2) :: t =>
    if strLt k k2 then (k, v) :: (k2, v2) :: t
    else if strLt k2 k then (k2, v2) :: mapInsert k v t
    else (k, v) :: t

/- std::set<std::string> is modelled as a sorted duplicate-free list. -/
def setInsert (k : Str) : List Str → List Str
  | [] => [k]
  | k2 :: t =>
    if strLt k k2 then k :: k2 :: t
    else if strLt k2 k then k2 :: setInsert k t
    else k2 :: t

/- std::map<size_t, std::vector<Section>>: operator[] followed by push_back. -/
def natMapAppend {α : Type} (k : Nat) (x : α) : List (Nat × List α) → List (Nat × List α)
  | [] => [(k, [x])]
  | (k2, v) :: t =>
    if k < k2 then (k, [x]) :: (k2, v) :: t
    else if k2 < k then (k2, v) :: natMapAppend k x t
    else (k2, v ++ [x]) :: t

/- std::map keyed by size_t: operator[]=v and find. -/
def natMapSet {α : Type} (k : Nat) (v : α) : List (Nat × α) → List (Nat × α)
  | [] => [(k, v)]
  | (k2, v2) :: t =>
    if k < k2 then (k, v) :: (k2, v2) :: t
    else if k2 < k then (k2, v2) :: natMapSet k v t
    else (k, v) :: t

def natMapFind {α : Type} (k : Nat) : List (Nat × α) → Option α
  | [] => none
  | (k2, v) :: t => if k = k2 then some v else natMapFind k t

/- std::map<std::string, std::string>::find. -/
def mapFind (k : Str) : List (Str × Str) → Option Str
  | [] => none
  | (k2, v) :: t => if k = k2 then some v else mapFind k t

/- sanitizeMathContent (latexgen.cpp lines 10-96): scan the text left to
   right, toggling an in-math-mode flag whenever one of the delimiters below
   matches at the current position (checked in the order of the C++ vector);
   on leaving math mode, apply the accent replacements to the span content.
   The C++ loop advances past inserted replacement text, which the functional
   version below reproduces by accumulating processed output separately.
   The fuel argument is initialised with the length of the input; every step
   consumes at least one character, so the fuel never runs out. -/
def mathEnvs : List Str :=
  [str "\\begin\x7bequation\x7d", str "\\end\x7bequation\x7d",
   str "\\begin\x7bequation*\x7d", str "\\end\x7bequation*\x7d",
   str "\\begin\x7balign\x7d", str "\\end\x7balign\x7d",
   str "\\begin\x7balign*\x7d", str "\\end\x7balign*\x7d",
   str "$", str "$$"]

/- The replacement table is a std::map<std::string, std::string>; iterating it
   visits the keys in byte order, i.e. the ASCII words first ("Documents",
   "Productivité", "Qualité", "Temps") and then the accented letters by their
   UTF-8 encoding ("à", "ç", "è", "é", "ê", "ù"). -/
def replacements : List (Str × Str) :=
  [(str "Documents", str "\\text\x7bDocuments\x7d"),
   (str "Productivité", str "\\text\x7bProductivité\x7d"),
   (str "Qualité", str "\\text\x7bQualité\x7d"),
   (str "Temps", str "\\text\x7bTemps\x7d"),
   (str "à", str "\\text\x7bà\x7d"),
   (str "ç", str "\\text\x7bç\x7d"),
   (str "è", str "\\text\x7bè\x7d"),
   (str "é", str "\\text\x7bé\x7d"),
   (str "ê", str "\\text\x7bê\x7d"),
   (str "ù", str "\\text\x7bù\x7d")]

/- One pass of `while ((repPos = mathContent.find(rep.first, repPos)) != npos)`
   with `repPos += rep.second.length()` after each replacement: scan left to
   right, emit the replacement and skip past the pattern on a match. -/
def replaceAllFrom (pat rep : Str) : Nat → Str → Str
  | _, [] => []
  | 0, s => s
  | fuel + 1, c :: t =>
    if isPre pat (c :: t) then rep ++ replaceAllFrom pat rep fuel ((c :: t).drop pat.length)
    else c :: replaceAllFrom pat rep fuel t

def replaceAll (pat rep s : Str) : Str := replaceAllFrom pat rep s.length s

def applyReps (s : Str) : Str :=
  replacements.foldl (fun acc pr => replaceAll pr.1 pr.2 acc) s

def findEnvAt (rest : Str) : Option Str :=
  mathEnvs.find? (fun env => isPre env rest)

def scanAux : Nat → Str → Option Str → Str → Str
  | _, [], none, out => out
  | _, [], some acc, out => out ++ acc
  | 0, rest, none, out => out ++ rest
  | 0, rest, some acc, out => out ++ acc ++ rest
  | fuel + 1, c :: rtail, mode, out =>
    match findEnvAt (c :: rtail), mode with
    | some env, none => scanAux fuel ((c :: rtail).drop env.length) (some []) (out ++ env)
    | some env, some acc =>
      scanAux fuel ((c :: rtail).drop env.length) none (out ++ applyReps acc ++ env)
    | none, none => scanAux fuel rtail none (out ++ [c])
    | none, some acc => scanAux fuel rtail (some (acc ++ [c])) out

def sanitizeMathContent (content : Str) : Str :=
  scanAux content.length content none []

theorem isPre_cons_false (a : Char) (p : Str) (c : Char) (t : Str) (h : a ≠ c) :
    isPre (a :: p) (c :: t) = false := by
  have hb : (a == c) = false := beq_eq_false_iff_ne.mpr h
  simp [isPre, hb]

/- Every math delimiter starts with a backslash or a dollar sign, so the scan
   passes over any other character without state change. -/
theorem findEnvAt_cons_none (c : Char) (t : Str) (h1 : c ≠ '\\') (h2 : c ≠ '$') :
    findEnvAt (c :: t) = none := by
  unfold findEnvAt
  rw [List.find?_eq_none]
  intro x hx
  simp only [Bool.not_eq_true]
  have hcases := by simpa [mathEnvs] using hx
  rcases hcases with rfl|rfl|rfl|rfl|rfl|rfl|rfl|rfl|rfl|rfl
  all_goals first
    | exact isPre_cons_false '\\' _ c t (Ne.symm h1)
    | exact isPre_cons_false '$' _ c t (Ne.symm h2)

theorem scan_pass (p : Str) (hp : ∀ c ∈ p, c ≠ '\\' ∧ c ≠ '$') :
    ∀ fuel rest out,
      scanAux (p.length + fuel) (p ++ rest) none out = scanAux fuel rest none (out ++ p) := by
  induction p with
  | nil => intro fuel rest out; simp
  | cons c p ih =>
    intro fuel rest out
    have hc := hp c (List.mem_cons_self c p)
    have hfind : findEnvAt (c :: (p ++ rest)) = none := findEnvAt_cons_none c _ hc.1 hc.2
    have hidx : (c :: p).length + fuel = (p.length + fuel) + 1 := by simp; omega
    rw [List.cons_append, hidx]
    rw [scanAux.eq_7 _ _ _ _ hfind]
    have := ih (fun d hd => hp d (List.mem_cons_of_mem c hd)) fuel rest (out ++ [c])
    rw [this]
    simp

theorem scan_tail (s : Str) (hs : ∀ c ∈ s, c ≠ '\\' ∧ c ≠ '$') :
    ∀ fuel out, s.length ≤ fuel → scanAux fuel s none out = out ++ s := by
  induction s with
  | nil => intro fuel out _; cases fuel <;> simp [scanAux]
  | cons c p ih =>
    intro fuel out hle
    have hc := hs c (List.mem_cons_self c p)
    have hfind : findEnvAt (c :: p) = none := findEnvAt_cons_none c _ hc.1 hc.2
    cases fuel with
    | zero => simp at hle
    | succ f =>
      rw [scanAux.eq_7 _ _ _ _ hfind]
      have hf : p.length ≤ f := by simp at hle; omega
      rw [ih (fun d hd => hs d (List.mem_cons_of_mem c hd)) f (out ++ [c]) hf]
      simp

/- Scanning the equation span around "Productivité" takes 14 steps (one for
   the opening delimiter, one per span character, one for the closing
   delimiter); the replacement table first wraps the whole word and then the
   "é" rule fires again inside the replacement just inserted. -/
theorem scan_core (fuel : Nat) (X out : Str) :
    scanAux (fuel + 14) (str "\\begin\x7bequation\x7dProductivité\\end\x7bequation\x7d" ++ X)
        none out
      = scanAux fuel X none
          (out ++ str "\\begin\x7bequation\x7d" ++ str "\\text\x7bProductivit\\text\x7bé\x7d\x7d"
            ++ str "\\end\x7bequation\x7d") := rfl

/-- C4, counterexample: on the input consisting exactly of an equation block
around the word "Productivité", sanitizeMathContent wraps the word but then
rewrites the accented letter inside the freshly inserted wrapper as well, so
the output does not contain the claimed text-mode form \text\x7bProductivité\x7d
anywhere. -/
theorem C4_counterexample :
    sanitizeMathContent (str "\\begin\x7bequation\x7dProductivité\\end\x7bequation\x7d")
      = str "\\begin\x7bequation\x7d\\text\x7bProductivit\\text\x7bé\x7d\x7d\\end\x7bequation\x7d"
    ∧ hasSub (str "\\text\x7bProductivité\x7d")
        (sanitizeMathContent (str "\\begin\x7bequation\x7dProductivité\\end\x7bequation\x7d"))
      = false := by
  exact ⟨rfl, rfl⟩

/-- C4 (amended): for every input of the form p ++ "\begin\x7bequation\x7dProductivité\end\x7bequation\x7d" ++ s
where the surrounding text p and s contains no backslash and no dollar
character (so it holds no math delimiter), sanitizeMathContent rewrites the
span content to "\text\x7bProductivit\text\x7bé\x7d\x7d" (the word is wrapped in a
text-mode-safe form whose accented letter is additionally wrapped by the
letter-level rule) and reproduces every character outside the recognized math
span byte-for-byte unchanged. -/
theorem C4_math_sanitization (p s : Str)
    (hp : ∀ c ∈ p, c ≠ '\\' ∧ c ≠ '$') (hs : ∀ c ∈ s, c ≠ '\\' ∧ c ≠ '$') :
    sanitizeMathContent
        (p ++ str "\\begin\x7bequation\x7dProductivité\\end\x7bequation\x7d" ++ s)
      = p ++ str "\\begin\x7bequation\x7d" ++ str "\\text\x7bProductivit\\text\x7bé\x7d\x7d"
          ++ str "\\end\x7bequation\x7d" ++ s := by
  have h42 : (str "\\begin\x7bequation\x7dProductivité\\end\x7bequation\x7d").length = 42 := rfl
  have hassoc :
      p ++ str "\\begin\x7bequation\x7dProductivité\\end\x7bequation\x7d" ++ s
        = p ++ (str "\\begin\x7bequation\x7dProductivité\\end\x7bequation\x7d" ++ s) := by
    simp
  have hlen :
      (p ++ str "\\begin\x7bequation\x7dProductivité\\end\x7bequation\x7d" ++ s).length
        = p.length + ((s.length + 28) + 14) := by
    simp [List.length_append, h42]
    omega
  unfold sanitizeMathContent
  rw [hlen, hassoc]
  rw [scan_pass p hp ((s.length + 28) + 14)
    (str "\\begin\x7bequation\x7dProductivité\\end\x7bequation\x7d" ++ s) []]
  rw [scan_core (s.length + 28) s ([] ++ p)]
  rw [scan_tail s hs (s.length + 28) _ (by omega)]
  simp

/-- C4, witness: the amended statement applied at p = "x " and s = " y". -/
theorem C4_math_sanitization_witness :
    sanitizeMathContent
        (str "x " ++ str "\\begin\x7bequation\x7dProductivité\\end\x7bequation\x7d" ++ str " y")
      = str "x " ++ str "\\begin\x7bequation\x7d" ++ str "\\text\x7bProductivit\\text\x7bé\x7d\x7d"
          ++ str "\\end\x7bequation\x7d" ++ str " y" :=
  C4_math_sanitization (str "x ") (str " y") (by decide) (by decide)

/- Enumerations of latexgen.h. -/

inductive DocumentType
  | ARTICLE
  | REPORT
  | BOOK
  | PRESENTATION
deriving DecidableEq

inductive Language
  | ENGLISH
  | FRENCH
  | GERMAN
  | SPANISH
  | ITALIAN
  | PORTUGUESE
  | DUTCH
  | RUSSIAN
  | CHINESE
  | JAPANESE
  | ARABIC
deriving DecidableEq

inductive BibStyle
  | PLAIN
  | ALPHA
  | ABBRV
  | ACM
  | IEEE
  | APA
  | CHICAGO
  | MLA
  | HARVARD
  | CUSTOM
deriving DecidableEq

def getBabelLanguageName : Language → Str
  | Language.ENGLISH => str "english"
  | Language.FRENCH => str "french"
  | Language.GERMAN => str "german,provide=*"
  | Language.SPANISH => str "spanish,provide=*"
  | Language.ITALIAN => str "italian,provide=*"
  | Language.PORTUGUESE => str "portuguese,provide=*"
  | Language.DUTCH => str "dutch,provide=*"
  | Language.RUSSIAN => str "russian,provide=*"
  | Language.CHINESE => str "chinese,provide=*"
  | Language.JAPANESE => str "japanese,provide=*"
  | Language.ARABIC => str "arabic,provide=*"

/- Section levels; the C++ switch in Section::generate has an unreachable
   default branch since the enum has exactly these four values. -/
inductive Level
  | CHAPTER
  | SECTION
  | SUBSECTION
  | SUBSUBSECTION
deriving DecidableEq

structure Section where
  title : Str
  level : Level
  content : List Str
deriving DecidableEq

def Section.generate (s : Section) : Str :=
  (match s.level with
    | Level.CHAPTER => str "\\chapter\x7b" ++ s.title ++ str "\x7d\n"
    | Level.SECTION => str "\\section\x7b" ++ s.title ++ str "\x7d\n"
    | Level.SUBSECTION => str "\\subsection\x7b" ++ s.title ++ str "\x7d\n"
    | Level.SUBSUBSECTION => str "\\subsubsection\x7b" ++ s.title ++ str "\x7d\n")
  ++ (s.content.map (fun c => c ++ str "\n")).flatten

/- The Environment base class: begin() and end() are built from the stored
   environment name m_name. -/
def envBegin (name : Str) : Str := str "\\begin\x7b" ++ name ++ str "\x7d\n"

def envEnd (name : Str) : Str := str "\\end\x7b" ++ name ++ str "\x7d\n"

/- Table. -/
structure Table where
  headers : List Str
  rows : List (List Str)
  caption : Str
  label : Str
  options : List (Str × Str)
deriving DecidableEq

def Table.new (headers : List Str) (position : Str) : Table :=
  { headers := headers, rows := [], caption := [], label := [],
    options := mapInsert (str "position") position [] }

def Table.addRow (t : Table) (row : List Str) : Table :=
  { t with rows := t.rows ++ [row] }

/- The column-specification loop: one "|c" per header. -/
def tableColSpec (numCols : Nat) : Str :=
  (List.replicate numCols (str "|c")).flatten

/- The header loop: `for i < numCols: header[i]; if i < numCols-1: " & "`. -/
def tableHeaderCells (numCols : Nat) : Nat → List Str → Str
  | _, [] => []
  | i, h :: t =>
    h ++ (if i < numCols - 1 then str " & " else []) ++ tableHeaderCells numCols (i + 1) t

/- The row loop: `for i < row.size && i < numCols: row[i]; if i < numCols-1: " & "`. -/
def tableRowCells (numCols : Nat) : Nat → List Str → Str
  | _, [] => []
  | i, c :: t =>
    if i < numCols then
      c ++ (if i < numCols - 1 then str " & " else []) ++ tableRowCells numCols (i + 1) t
    else []

def tableRowBlock (numCols : Nat) (row : List Str) : Str :=
  tableRowCells numCols 0 row ++ str " \\\\ \\hline\n"

def Table.generate (t : Table) : Str :=
  str "\\begin\x7btable\x7d"
  ++ (if !t.options.isEmpty ∧ (mapFind (str "position") t.options).isSome
      then str "[" ++ (mapFind (str "position") t.options).getD [] ++ str "]" else [])
  ++ str "\n\\centering\n"
  ++ str "\\begin\x7btabular\x7d\x7b" ++ tableColSpec t.headers.length ++ str "|\x7d\n\\hline\n"
  ++ tableHeaderCells t.headers.length 0 t.headers ++ str " \\\\ \\hline\n"
  ++ (t.rows.map (tableRowBlock t.headers.length)).flatten
  ++ str "\\end\x7btabular\x7d\n"
  ++ (if t.caption.isEmpty then [] else str "\\caption\x7b" ++ t.caption ++ str "\x7d\n")
  ++ (if t.label.isEmpty then [] else str "\\label\x7b" ++ t.label ++ str "\x7d\n")
  ++ str "\\end\x7btable\x7d\n"

/- Figure. -/
structure Figure where
  imagePath : Str
  caption : Str
  label : Str
  width : Str
  options : List (Str × Str)
deriving DecidableEq

def Figure.new (imagePath : Str) (position : Str) : Figure :=
  { imagePath := imagePath, caption := [], label := [], width := str "0.8\\textwidth",
    options := mapInsert (str "position") position [] }

def Figure.generate (f : Figure) : Str :=
  str "\\begin\x7bfigure\x7d"
  ++ (if !f.options.isEmpty ∧ (mapFind (str "position") f.options).isSome
      then str "[" ++ (mapFind (str "position") f.options).getD [] ++ str "]" else [])
  ++ str "\n\\centering\n"
  ++ str "\\includegraphics"
  ++ (if f.width.isEmpty then [] else str "[width=" ++ f.width ++ str "]")
  ++ str "\x7b" ++ f.imagePath ++ str "\x7d\n"
  ++ (if f.caption.isEmpty then [] else str "\\caption\x7b" ++ f.caption ++ str "\x7d\n")
  ++ (if f.label.isEmpty then [] else str "\\label\x7b" ++ f.label ++ str "\x7d\n")
  ++ str "\\end\x7bfigure\x7d\n"

/- Equation: the stored environment name is equation or equation* depending on
   the numbered flag given at construction. -/
structure Equation where
  numbered : Bool
  content : Str
  label : Str
deriving DecidableEq

def Equation.name (e : Equation) : Str :=
  if e.numbered then str "equation" else str "equation*"

def Equation.new (numbered : Bool) : Equation :=
  { numbered := numbered, content := [], label := [] }

def Equation.generate (e : Equation) : Str :=
  envBegin e.name
  ++ e.content ++ str "\n"
  ++ (if e.label.isEmpty then [] else str "\\label\x7b" ++ e.label ++ str "\x7d\n")
  ++ envEnd e.name

/- List environments; named ListEnv because List is taken in Lean. -/
inductive ListType
  | ITEMIZE
  | ENUMERATE
  | DESCRIPTION
deriving DecidableEq

structure ListEnv where
  type : ListType
  items : List Str
  itemLabels : List (Nat × Str)
deriving DecidableEq

def ListEnv.name (l : ListEnv) : Str :=
  match l.type with
  | ListType.ITEMIZE => str "itemize"
  | ListType.ENUMERATE => str "enumerate"
  | ListType.DESCRIPTION => str "description"

def ListEnv.new (type : ListType) : ListEnv :=
  { type := type, items := [], itemLabels := [] }

def ListEnv.addItem (l : ListEnv) (item : Str) (label : Str) : ListEnv :=
  { l with items := l.items ++ [item],
           itemLabels := if label.isEmpty then l.itemLabels
                         else natMapSet l.items.length label l.itemLabels }

def listItemsLoop (l : ListEnv) : Nat → List Str → Str
  | _, [] => []
  | i, item :: t =>
    str "\\item "
    ++ (if l.type = ListType.DESCRIPTION ∧ (natMapFind i l.itemLabels).isSome
        then str "[" ++ (natMapFind i l.itemLabels).getD [] ++ str "] " else [])
    ++ item ++ str "\n" ++ listItemsLoop l (i + 1) t

def ListEnv.generate (l : ListEnv) : Str :=
  envBegin l.name ++ listItemsLoop l 0 l.items ++ envEnd l.name

/- Algorithm: lines carry an int indentation level; the emission loop prints
   four spaces per level and runs zero times for non-positive values. -/
structure Algorithm where
  caption : Str
  label : Str
  lines : List (Str × Int)
deriving DecidableEq

def Algorithm.generate (a : Algorithm) : Str :=
  str "\\begin\x7balgorithm\x7d\n"
  ++ (if a.caption.isEmpty then [] else str "\\caption\x7b" ++ a.caption ++ str "\x7d\n")
  ++ (if a.label.isEmpty then [] else str "\\label\x7b" ++ a.label ++ str "\x7d\n")
  ++ str "\\begin\x7balgorithmic\x7d[1]\n"
  ++ (a.lines.map
      (fun line => (List.replicate line.2.toNat (str "    ")).flatten ++ line.1 ++ str "\n")).flatten
  ++ str "\\end\x7balgorithmic\x7d\n"
  ++ str "\\end\x7balgorithm\x7d\n"

def Algorithm.getAlgorithmPackages : Str :=
  str "\\usepackage\x7balgorithm\x7d\n" ++ str "\\usepackage\x7balgpseudocode\x7d\n"

/- TheoremEnvironment. -/
inductive ThmType
  | THEOREM
  | LEMMA
  | PROPOSITION
  | COROLLARY
  | DEFINITION
  | EXAMPLE
  | REMARK
  | PROOF
  | CUSTOM
deriving DecidableEq

def getEnvironmentName : ThmType → Str
  | ThmType.THEOREM => str "theorem"
  | ThmType.LEMMA => str "lemma"
  | ThmType.PROPOSITION => str "proposition"
  | ThmType.COROLLARY => str "corollary"
  | ThmType.DEFINITION => str "definition"
  | ThmType.EXAMPLE => str "example"
  | ThmType.REMARK => str "remark"
  | ThmType.PROOF => str "proof"
  | ThmType.CUSTOM => str "customtheorem"

structure TheoremEnvironment where
  name : Str
  type : ThmType
  content : Str
  title : Str
  customType : Str
deriving DecidableEq

def TheoremEnvironment.new (type : ThmType) (content title : Str) : TheoremEnvironment :=
  { name := getEnvironmentName type, type := type, content := content, title := title,
    customType := [] }

def TheoremEnvironment.newCustom (customType content title : Str) : TheoremEnvironment :=
  { name := customType, type := ThmType.CUSTOM, content := content, title := title,
    customType := customType }

def TheoremEnvironment.generate (th : TheoremEnvironment) : Str :=
  str "\\begin\x7b" ++ th.name ++ str "\x7d"
  ++ (if th.title.isEmpty then [] else str "[" ++ th.title ++ str "]")
  ++ str "\n"
  ++ th.content ++ str "\n"
  ++ str "\\end\x7b" ++ th.name ++ str "\x7d\n"

/- The polymorphic Environment hierarchy as a sum type. -/
inductive Env
  | table : Table → Env
  | figure : Figure → Env
  | equation : Equation → Env
  | list : ListEnv → Env
  | algorithm : Algorithm → Env
  | theoremEnv : TheoremEnvironment → Env
deriving DecidableEq

def Env.name : Env → Str
  | Env.table _ => str "table"
  | Env.figure _ => str "figure"
  | Env.equation e => e.name
  | Env.list l => l.name
  | Env.algorithm _ => str "algorithm"
  | Env.theoremEnv th => th.name

def Env.begin (e : Env) : Str := envBegin e.name

def Env.endCmd (e : Env) : Str := envEnd e.name

def Env.generate : Env → Str
  | Env.table t => t.generate
  | Env.figure f => f.generate
  | Env.equation e => e.generate
  | Env.list l => l.generate
  | Env.algorithm a => a.generate
  | Env.theoremEnv th => th.generate

/- Theorem environment preamble setup with per-language names. -/
def TheoremEnvironment.getTheoremSetup (language : Language) : Str :=
  let names : Str × Str × Str × Str × Str × Str × Str × Str :=
    match language with
    | Language.FRENCH =>
      (str "Théorème", str "Lemme", str "Proposition", str "Corollaire",
       str "Définition", str "Exemple", str "Remarque", str "Preuve")
    | Language.GERMAN =>
      (str "Satz", str "Lemma", str "Behauptung", str "Korollar",
       str "Definition", str "Beispiel", str "Bemerkung", str "Beweis")
    | Language.SPANISH =>
      (str "Teorema", str "Lema", str "Proposición", str "Corolario",
       str "Definición", str "Ejemplo", str "Observación", str "Demostración")
    | Language.ITALIAN =>
      (str "Teorema", str "Lemma", str "Proposizione", str "Corollario",
       str "Definizione", str "Esempio", str "Osservazione", str "Dimostrazione")
    | _ =>
      (str "Theorem", str "Lemma", str "Proposition", str "Corollary",
       str "Definition", str "Example", str "Remark", str "Proof")
  match names with
  | (thmN, lemN, propN, corN, defN, exN, remN, prfN) =>
    str "\\usepackage\x7bamsthm\x7d\n"
    ++ str "\\theoremstyle\x7bplain\x7d\n"
    ++ str "\\newtheorem\x7btheorem\x7d\x7b" ++ thmN ++ str "\x7d\n"
    ++ str "\\newtheorem\x7blemma\x7d[theorem]\x7b" ++ lemN ++ str "\x7d\n"
    ++ str "\\newtheorem\x7bproposition\x7d[theorem]\x7b" ++ propN ++ str "\x7d\n"
    ++ str "\\newtheorem\x7bcorollary\x7d[theorem]\x7b" ++ corN ++ str "\x7d\n"
    ++ str "\\theoremstyle\x7bdefinition\x7d\n"
    ++ str "\\newtheorem\x7bdefinition\x7d\x7b" ++ defN ++ str "\x7d\n"
    ++ str "\\newtheorem\x7bexample\x7d\x7b" ++ exN ++ str "\x7d\n"
    ++ str "\\theoremstyle\x7bremark\x7d\n"
    ++ str "\\newtheorem\x7bremark\x7d\x7b" ++ remN ++ str "\x7d\n"
    ++ str "\\renewcommand\x7b\\proofname\x7d\x7b" ++ prfN ++ str "\x7d\n"

/- BibEntry. -/
inductive EntryType
  | ARTICLE
  | BOOK
  | INPROCEEDINGS
  | TECHREPORT
  | PHDTHESIS
  | MASTERSTHESIS
  | MISC
deriving DecidableEq

def BibEntry.getTypeString : EntryType → Str
  | EntryType.ARTICLE => str "article"
  | EntryType.BOOK => str "book"
  | EntryType.INPROCEEDINGS => str "inproceedings"
  | EntryType.TECHREPORT => str "techreport"
  | EntryType.PHDTHESIS => str "phdthesis"
  | EntryType.MASTERSTHESIS => str "mastersthesis"
  | EntryType.MISC => str "misc"

structure BibEntry where
  key : Str
  type : EntryType
  fields : List (Str × Str)
deriving DecidableEq

def BibEntry.addField (e : BibEntry) (field value : Str) : BibEntry :=
  { e with fields := mapInsert field value e.fields }

/- Field loop of BibEntry::generate: a comma after every field but the last. -/
def bibFieldsLoop : List (Str × Str) → Str
  | [] => []
  | [f] => str "  " ++ f.1 ++ str " = \x7b" ++ f.2 ++ str "\x7d" ++ str "\n"
  | f :: g :: t =>
    str "  " ++ f.1 ++ str " = \x7b" ++ f.2 ++ str "\x7d" ++ str ",\n" ++ bibFieldsLoop (g :: t)

def BibEntry.generate (e : BibEntry) : Str :=
  str "@" ++ BibEntry.getTypeString e.type ++ str "\x7b" ++ e.key ++ str ",\n"
  ++ bibFieldsLoop e.fields
  ++ str "\x7d\n"

/- Bibliography.  generateBibFile is file I/O and is out of scope (excluded
   persistence collaborator). -/
structure Bibliography where
  bibFile : Str
  style : BibStyle
  customStyle : Str
  useExternalFile : Bool
  entries : List BibEntry
deriving DecidableEq

/- The default constructor Bibliography(). -/
def Bibliography.default : Bibliography :=
  { bibFile := str "references", style := BibStyle.PLAIN, customStyle := [],
    useExternalFile := false, entries := [] }

/- Bibliography(bibFile, style). -/
def Bibliography.newExternal (bibFile : Str) (style : BibStyle) : Bibliography :=
  { bibFile := bibFile, style := style, customStyle := [], useExternalFile := true,
    entries := [] }

def Bibliography.addEntry (b : Bibliography) (e : BibEntry) : Bibliography :=
  { b with entries := b.entries ++ [e], useExternalFile := false }

def Bibliography.getStyleName (b : Bibliography) : Str :=
  match b.style with
  | BibStyle.PLAIN => str "plain"
  | BibStyle.ALPHA => str "alpha"
  | BibStyle.ABBRV => str "abbrv"
  | BibStyle.ACM => str "acm"
  | BibStyle.IEEE => str "ieeetr"
  | BibStyle.APA => str "apalike"
  | BibStyle.CHICAGO => str "chicago"
  | BibStyle.MLA => str "mla"
  | BibStyle.HARVARD => str "harvard"
  | BibStyle.CUSTOM => b.customStyle

def Bibliography.getPreambleConfig (_ : Bibliography) : Str := []

/- getIncludeCommands: the optional title parameter only feeds a local
   variable that is never emitted (dead code), so it is dropped here. -/
def Bibliography.getIncludeCommands (b : Bibliography) : Str :=
  str "\n\\bibliographystyle\x7b" ++ b.getStyleName ++ str "\x7d\n"
  ++ str "\\bibliography\x7b" ++ b.bibFile ++ str "\x7d\n"

/- The Document base class.  saveToFile is file I/O and is out of scope; the
   convenience constructors (addFigure, addTable, ...) return aliased handles
   and only compose the primitive mutators modelled here. -/
structure Document where
  type : DocumentType
  title : Str
  author : Str
  date : Str
  language : Language
  packages : List (Str × Str)
  sections : List Section
  environments : List Env
  rawContent : List Str
  customPreamble : List Str
  usedCitations : List Str
  bibliography : Bibliography
  theoremsEnabled : Bool
  algorithmsEnabled : Bool
deriving DecidableEq

def Document.addPackage (d : Document) (package options : Str) : Document :=
  { d with packages := mapInsert package options d.packages }

def Document.addSection (d : Document) (s : Section) : Document :=
  { d with sections := d.sections ++ [s] }

def Document.addEnvironment (d : Document) (e : Env) : Document :=
  { d with environments := d.environments ++ [e] }

def Document.addRawContent (d : Document) (content : Str) : Document :=
  { d with rawContent := d.rawContent ++ [content] }

def Document.addInPreamble (d : Document) (content : Str) : Document :=
  { d with customPreamble := d.customPreamble ++ [content] }

def Document.cite (d : Document) (key : Str) : Document × Str :=
  ({ d with usedCitations := setInsert key d.usedCitations },
   str "\\cite\x7b" ++ key ++ str "\x7d")

def Document.citePages (d : Document) (key pages : Str) : Document × Str :=
  ({ d with usedCitations := setInsert key d.usedCitations },
   str "\\cite[" ++ pages ++ str "]\x7b" ++ key ++ str "\x7d")

def Document.setBibliography (d : Document) (b : Bibliography) : Document :=
  { d with bibliography := b }

def Document.enableTheorems (d : Document) : Document :=
  { d with theoremsEnabled := true }

def Document.enableAlgorithms (d : Document) : Document :=
  { d with algorithmsEnabled := true }

/- The Document constructor. -/
def Document.new (type : DocumentType) (title author date : Str) (language : Language) :
    Document :=
  let d : Document :=
    { type := type, title := title, author := author, date := date, language := language,
      packages := [], sections := [], environments := [], rawContent := [],
      customPreamble := [], usedCitations := [], bibliography := Bibliography.default,
      theoremsEnabled := false, algorithmsEnabled := false }
  let d := d.addPackage (str "inputenc") (str "utf8")
  let d := d.addPackage (str "fontenc") (str "T1")
  let d := if language ≠ Language.ENGLISH
           then d.addPackage (str "babel") (getBabelLanguageName language) else d
  match language with
  | Language.RUSSIAN => d.addPackage (str "cyrillic") []
  | Language.CHINESE => d.addPackage (str "xeCJK") []
  | Language.JAPANESE => d.addPackage (str "xeCJK") []
  | Language.ARABIC => d.addPackage (str "arabxetex") []
  | _ => d

def getLanguageConfiguration : Language → Str
  | Language.FRENCH => str "\\frenchbsetup\x7bStandardLayout=true\x7d\n"
  | Language.GERMAN => str "\\selectlanguage\x7bngerman\x7d\n"
  | Language.SPANISH => str "\\selectlanguage\x7bspanish\x7d\n"
  | Language.ITALIAN => str "\\selectlanguage\x7bitalian\x7d\n"
  | Language.PORTUGUESE => str "\\selectlanguage\x7bportuguese\x7d\n"
  | Language.DUTCH => str "\\selectlanguage\x7bdutch\x7d\n"
  | Language.RUSSIAN => str "\\selectlanguage\x7brussian\x7d\n"
  | Language.CHINESE => str "\\setCJKmainfont\x7bSimSun\x7d\n"
  | Language.JAPANESE => str "\\setCJKmainfont\x7bIPAMincho\x7d\n"
  | Language.ARABIC => str "\\setmainlanguage\x7barabic\x7d\n"
  | Language.ENGLISH => []

def getDocumentClass : DocumentType → Str
  | DocumentType.ARTICLE => str "article"
  | DocumentType.REPORT => str "report"
  | DocumentType.BOOK => str "book"
  | DocumentType.PRESENTATION => str "beamer"

/- One \usepackage line per entry of the package map. -/
def pkgLine (p : Str × Str) : Str :=
  str "\\usepackage"
  ++ (if p.2.isEmpty then [] else str "[" ++ p.2 ++ str "]")
  ++ str "\x7b" ++ p.1 ++ str "\x7d\n"

def pkgLines (m : List (Str × Str)) : Str := (m.map pkgLine).flatten

def Document.generatePreamble (d : Document) : Str :=
  str "\\documentclass\x7b" ++ getDocumentClass d.type ++ str "\x7d\n\n"
  ++ pkgLines d.packages ++ str "\n"
  ++ getLanguageConfiguration d.language
  ++ (if d.title.isEmpty then [] else str "\\title\x7b" ++ d.title ++ str "\x7d\n")
  ++ (if d.author.isEmpty then [] else str "\\author\x7b" ++ d.author ++ str "\x7d\n")
  ++ (if d.date.isEmpty then [] else str "\\date\x7b" ++ d.date ++ str "\x7d\n")
  ++ (if d.theoremsEnabled then TheoremEnvironment.getTheoremSetup d.language else [])
  ++ (if d.algorithmsEnabled then Algorithm.getAlgorithmPackages else [])
  ++ (if !d.usedCitations.isEmpty then d.bibliography.getPreambleConfig else [])
  ++ (d.customPreamble.map (fun c => c ++ str "\n")).flatten
  ++ str "\n"

def Document.generateDocument (d : Document) : Str :=
  str "\\begin\x7bdocument\x7d\n\n"
  ++ (if d.title.isEmpty then [] else str "\\maketitle\n\n")
  ++ (d.rawContent.map (fun c => c ++ str "\n\n")).flatten
  ++ (d.sections.map (fun s => s.generate ++ str "\n")).flatten
  ++ (d.environments.map (fun e => e.generate ++ str "\n")).flatten
  ++ (if !d.usedCitations.isEmpty then d.bibliography.getIncludeCommands ++ str "\n" else [])
  ++ str "\\end\x7bdocument\x7d\n"

def Document.generate (d : Document) : Str :=
  d.generatePreamble ++ d.generateDocument

/- A call of the const method generate() on an object: it returns the text and
   leaves the object state unchanged. -/
def Document.generateRun (d : Document) : Str × Document := (d.generate, d)

/- Localized keyword-line titles used by Article::generatePreamble. -/
def keywordsTitle : Language → Str
  | Language.FRENCH => str "Mots-clés:"
  | Language.GERMAN => str "Schlüsselwörter:"
  | Language.SPANISH => str "Palabras clave:"
  | Language.ITALIAN => str "Parole chiave:"
  | Language.PORTUGUESE => str "Palavras-chave:"
  | Language.DUTCH => str "Trefwoorden:"
  | Language.RUSSIAN => str "Ключевые слова:"
  | Language.CHINESE => str "关键词:"
  | Language.JAPANESE => str "キーワード:"
  | Language.ARABIC => str "الكلمات المفتاحية:"
  | Language.ENGLISH => str "Keywords:"

/- Localized index titles; the identical switch appears verbatim in both
   Article::generatePreamble and Book::generatePreamble. -/
def indexTitle : Language → Str
  | Language.FRENCH => str "Index alphabétique"
  | Language.GERMAN => str "Alphabetischer Index"
  | Language.SPANISH => str "Índice alfabético"
  | Language.ITALIAN => str "Indice alfabetico"
  | Language.PORTUGUESE => str "Índice alfabético"
  | Language.DUTCH => str "Alfabetische index"
  | Language.RUSSIAN => str "Алфавитный указатель"
  | Language.CHINESE => str "索引"
  | Language.JAPANESE => str "索引"
  | Language.ARABIC => str "فهرس"
  | Language.ENGLISH => str "Alphabetical Index"

/- The lstset configuration emitted by Article::generatePreamble. -/
def articleLstset : Str :=
  str "\\lstset\x7b\n"
  ++ str "  basicstyle=\\small\\ttfamily,\n"
  ++ str "  keywordstyle=\\color\x7bblue\x7d\\bfseries,\n"
  ++ str "  commentstyle=\\color\x7bgreen!60!black\x7d\\itshape,\n"
  ++ str "  stringstyle=\\color\x7bpurple\x7d,\n"
  ++ str "  frame=single,\n"
  ++ str "  breaklines=true,\n"
  ++ str "  showstringspaces=false,\n"
  ++ str "  inputencoding=utf8,\n"
  ++ str "  extendedchars=true,\n"
  ++ str "  literate=\x7bé\x7d\x7b\x7b\\\x27e\x7d\x7d1 \x7bè\x7d\x7b\x7b\\\x60e\x7d\x7d1 \x7bê\x7d\x7b\x7b\\^e\x7d\x7d1 \x7bë\x7d\x7b\x7b\\\x22e\x7d\x7d1\n"
  ++ str "           \x7bà\x7d\x7b\x7b\\\x60a\x7d\x7d1 \x7bâ\x7d\x7b\x7b\\^a\x7d\x7d1 \x7bä\x7d\x7b\x7b\\\x22a\x7d\x7d1\n"
  ++ str "           \x7bî\x7d\x7b\x7b\\^i\x7d\x7d1 \x7bï\x7d\x7b\x7b\\\x22i\x7d\x7d1\n"
  ++ str "           \x7bô\x7d\x7b\x7b\\^o\x7d\x7d1 \x7bö\x7d\x7b\x7b\\\x22o\x7d\x7d1\n"
  ++ str "           \x7bù\x7d\x7b\x7b\\\x60u\x7d\x7d1 \x7bû\x7d\x7b\x7b\\^u\x7d\x7d1 \x7bü\x7d\x7b\x7b\\\x22u\x7d\x7d1\n"
  ++ str "           \x7bç\x7d\x7b\x7b\\c c\x7d\x7d1\n"
  ++ str "\x7d\n\n"

/- Article.  The base Document also has a m_customPreamble member; Article
   declares its own vector of the same name which shadows it, so both lists are
   kept.  Article::generateDocument additionally reads
   m_includeTableOfContents (declared in the shipped header revision, default
   false). -/
structure Article where
  doc : Document
  abstract : Str
  customPreambleA : List Str
  keywords : List Str
  includeIndexFlag : Bool
  includeTableOfContents : Bool
deriving DecidableEq

def Article.new (title author date : Str) (language : Language) : Article :=
  { doc := ((((Document.new DocumentType.ARTICLE title author date language).addPackage
        (str "geometry") (str "margin=1in")).addPackage
        (str "amsmath") []).addPackage
        (str "graphicx") []),
    abstract := [], customPreambleA := [], keywords := [], includeIndexFlag := false,
    includeTableOfContents := false }

def Article.setAbstract (a : Article) (abstract : Str) : Article :=
  { a with abstract := abstract }

def Article.addKeyword (a : Article) (keyword : Str) : Article :=
  { a with keywords := a.keywords ++ [keyword] }

def Article.addInPreamble (a : Article) (content : Str) : Article :=
  { a with customPreambleA := a.customPreambleA ++ [content] }

def Article.includeIndex (a : Article) (include0 : Bool) : Article :=
  let a := { a with includeIndexFlag := include0 }
  if include0 then { a with doc := a.doc.addPackage (str "imakeidx") [] } else a

/- Article::setBibliography also writes a sample .bib file to disk, which is
   out of scope (persistence collaborator); the in-memory effect is kept. -/
def Article.setBibliography (a : Article) (b : Bibliography) : Article :=
  { a with doc := { a.doc with bibliography := b } }

def Article.generatePreamble (a : Article) : Str :=
  Document.generatePreamble a.doc
  ++ articleLstset
  ++ (a.customPreambleA.map (fun c => c ++ str "\n")).flatten
  ++ (if a.keywords.isEmpty then []
      else str "\\providecommand\x7b\\keywords\x7d[1]\x7b\\par\\noindent\\textbf\x7b"
        ++ keywordsTitle a.doc.language ++ str "\x7d #1\x7d\n\n")
  ++ (if a.includeIndexFlag then
        str "\\makeindex[columns=2, title=" ++ indexTitle a.doc.language ++ str ", intoc]\n\n"
      else [])

/- The keyword list loop: a comma-space after every keyword but the last. -/
def keywordsLoop : List Str → Str
  | [] => []
  | [k] => k
  | k :: g :: t => k ++ str ", " ++ keywordsLoop (g :: t)

/- The title block of Article::generateDocument: the keyword line is nested
   inside the non-empty-title conditional. -/
def Article.titleBlock (a : Article) : Str :=
  if a.doc.title.isEmpty then []
  else
    str "\\maketitle\n\n"
    ++ (if a.keywords.isEmpty then []
        else str "\\keywords\x7b" ++ keywordsLoop a.keywords ++ str "\x7d\n\n")

def Article.generateDocument (a : Article) : Str :=
  str "\\begin\x7bdocument\x7d\n\n"
  ++ a.titleBlock
  ++ (if a.abstract.isEmpty then []
      else str "\\begin\x7babstract\x7d\n" ++ a.abstract ++ str "\n\\end\x7babstract\x7d\n\n")
  ++ (if a.includeTableOfContents then str "\\tableofcontents\n\\clearpage\n\n" else [])
  ++ (a.doc.rawContent.map (fun c => c ++ str "\n\n")).flatten
  ++ (a.doc.sections.map (fun s => s.generate ++ str "\n")).flatten
  ++ (a.doc.environments.map (fun e => e.generate ++ str "\n")).flatten
  ++ (if !a.doc.usedCitations.isEmpty then a.doc.bibliography.getIncludeCommands ++ str "\n"
      else [])
  ++ str "\\end\x7bdocument\x7d\n"

def Article.generate (a : Article) : Str :=
  a.generatePreamble ++ a.generateDocument

def Article.generateRun (a : Article) : Str × Article := (a.generate, a)

/- Report. -/
structure Report where
  doc : Document
  abstract : Str
  includeTableOfContents : Bool
  includeListOfFigures : Bool
  includeListOfTables : Bool
deriving DecidableEq

def Report.new (title author date : Str) (language : Language) : Report :=
  { doc := (((((Document.new DocumentType.REPORT title author date language).addPackage
        (str "geometry") (str "margin=1in")).addPackage
        (str "amsmath") []).addPackage
        (str "graphicx") []).addPackage
        (str "hyperref") []).addPackage
        (str "tocloft") [],
    abstract := [], includeTableOfContents := false, includeListOfFigures := false,
    includeListOfTables := false }

def Report.generatePreamble (r : Report) : Str :=
  Document.generatePreamble r.doc

/- Report::generateDocument: note that it has no bibliography block. -/
def Report.generateDocument (r : Report) : Str :=
  str "\\begin\x7bdocument\x7d\n\n"
  ++ (if r.doc.title.isEmpty then [] else str "\\maketitle\n\n")
  ++ (if r.abstract.isEmpty then []
      else str "\\begin\x7babstract\x7d\n" ++ r.abstract ++ str "\n\\end\x7babstract\x7d\n\n")
  ++ (if r.includeTableOfContents then str "\\tableofcontents\n\\clearpage\n\n" else [])
  ++ (if r.includeListOfFigures then str "\\listoffigures\n\\clearpage\n\n" else [])
  ++ (if r.includeListOfTables then str "\\listoftables\n\\clearpage\n\n" else [])
  ++ (r.doc.rawContent.map (fun c => c ++ str "\n\n")).flatten
  ++ (r.doc.sections.map (fun s => s.generate ++ str "\n")).flatten
  ++ (r.doc.environments.map (fun e => e.generate ++ str "\n")).flatten
  ++ str "\\end\x7bdocument\x7d\n"

def Report.generate (r : Report) : Str :=
  r.generatePreamble ++ r.generateDocument

def Report.generateRun (r : Report) : Str × Report := (r.generate, r)

/- Book. -/
structure Book where
  doc : Document
  abstract : Str
  includeTableOfContents : Bool
  includeListOfFigures : Bool
  includeListOfTables : Bool
  includeIndexFlag : Bool
  parts : List Str
  partChapters : List (Nat × List Section)
  appendices : List Section
  currentPart : Int
deriving DecidableEq

def Book.new (title author date : Str) (language : Language) : Book :=
  { doc := ((((((Document.new DocumentType.BOOK title author date language).addPackage
        (str "geometry") (str "margin=1in")).addPackage
        (str "amsmath") []).addPackage
        (str "graphicx") []).addPackage
        (str "hyperref") []).addPackage
        (str "tocloft") []).addPackage
        (str "bookmark") [],
    abstract := [], includeTableOfContents := false, includeListOfFigures := false,
    includeListOfTables := false, includeIndexFlag := false, parts := [],
    partChapters := [], appendices := [], currentPart := -1 }

/- addPart: push the title and make the new part current. -/
def Book.addPart (b : Book) (title : Str) : Book :=
  let newParts := b.parts ++ [title]
  { b with parts := newParts, currentPart := Int.ofNat (newParts.length - 1) }

/- addChapterToPart: only stores the chapter when the current part index is a
   valid index into m_parts; with no parts (index -1) nothing happens. -/
def Book.addChapterToPart (b : Book) (chapter : Section) : Book :=
  if 0 ≤ b.currentPart ∧ b.currentPart < Int.ofNat b.parts.length then
    { b with partChapters := natMapAppend b.currentPart.toNat chapter b.partChapters }
  else b

def Book.addAppendix (b : Book) (appendix : Section) : Book :=
  { b with appendices := b.appendices ++ [appendix] }

def Book.generatePreamble (b : Book) : Str :=
  Document.generatePreamble b.doc
  ++ (if b.includeIndexFlag then
        str "\\makeindex[columns=2, title=" ++ indexTitle b.doc.language ++ str ", intoc]\n\n"
      else [])
  ++ str "\\providecommand\x7b\\abstractname\x7d\x7bAbstract\x7d\n"
  ++ str "\\ifdefined\\abstract\\else\n"
  ++ str "  \\newenvironment\x7babstract\x7d\x7b\\chapter*\x7b\\abstractname\x7d\x7d\x7b\x7d\n"
  ++ str "\\fi\n"

/- One iteration of the parts loop in Book::generateDocument. -/
def Book.partBlock (b : Book) (i : Nat) : Str :=
  str "\\part\x7b" ++ b.parts.getD i [] ++ str "\x7d\n\n"
  ++ (match natMapFind i b.partChapters with
      | some chapters => (chapters.map (fun c => c.generate ++ str "\n")).flatten
      | none => [])

def Book.generateDocument (b : Book) : Str :=
  str "\\begin\x7bdocument\x7d\n\n"
  ++ str "\\maketitle\n\n"
  ++ (if b.abstract.isEmpty then []
      else str "\\begin\x7babstract\x7d\n" ++ b.abstract ++ str "\n\\end\x7babstract\x7d\n\n")
  ++ (if b.includeTableOfContents then str "\\tableofcontents\n\n" else [])
  ++ (if b.includeListOfFigures then str "\\listoffigures\n\n" else [])
  ++ (if b.includeListOfTables then str "\\listoftables\n\n" else [])
  ++ ((List.range b.parts.length).map b.partBlock).flatten
  ++ (b.doc.sections.map (fun s => s.generate ++ str "\n")).flatten
  ++ (b.doc.environments.map (fun e => e.generate ++ str "\n")).flatten
  ++ (b.doc.rawContent.map (fun c => c ++ str "\n\n")).flatten
  ++ (if !b.appendices.isEmpty then
        str "\\appendix\n\n" ++ (b.appendices.map (fun s => s.generate ++ str "\n")).flatten
      else [])
  ++ (if b.includeIndexFlag then str "\\printindex\n\n" else [])
  ++ str "\\end\x7bdocument\x7d\n"

def Book.generate (b : Book) : Str :=
  b.generatePreamble ++ b.generateDocument

def Book.generateRun (b : Book) : Str × Book := (b.generate, b)

/- Presentation (beamer). -/
inductive Theme
  | DEFAULT
  | BERKELEY
  | MADRID
  | ANTIBES
  | COPENHAGEN
  | BERLIN
  | MANHATTAN
  | WARSAW
  | SINGAPORE
deriving DecidableEq

inductive ColorTheme
  | DEFAULT
  | BEAVER
  | CRANE
  | DOLPHIN
  | DOVE
  | FLY
  | SEAGULL
  | WOLVERINE
deriving DecidableEq

inductive Transition
  | NONE
  | FADE
  | PUSH
  | COVER
  | UNCOVER
  | SPLIT
  | BLINDS
  | WIPE
deriving DecidableEq

structure Presentation where
  doc : Document
  institute : Str
  subtitle : Str
  theme : Theme
  colorTheme : ColorTheme
  transition : Transition
  showNavigation : Bool
  slides : List (Str × List Str)
  structureItems : List (Level × Str × Bool)
deriving DecidableEq

def Presentation.new (title author date : Str) (language : Language)
    (theme : Theme) (colorTheme : ColorTheme) : Presentation :=
  { doc := ((((Document.new DocumentType.PRESENTATION title author date language).addPackage
        (str "graphicx") []).addPackage
        (str "hyperref") []).addPackage
        (str "listings") []).addPackage
        (str "xcolor") [],
    institute := [], subtitle := [], theme := theme, colorTheme := colorTheme,
    transition := Transition.NONE, showNavigation := true, slides := [],
    structureItems := [] }

def Presentation.addSlide (p : Presentation) (title : Str) (content : List Str) :
    Presentation :=
  { p with slides := p.slides ++ [(title, content)] }

def Presentation.addSection (p : Presentation) (title : Str) (createFrame : Bool) :
    Presentation :=
  { p with structureItems := p.structureItems ++ [(Level.SECTION, title, createFrame)] }

def Presentation.addSubsection (p : Presentation) (title : Str) (createFrame : Bool) :
    Presentation :=
  { p with structureItems := p.structureItems ++ [(Level.SUBSECTION, title, createFrame)] }

def Presentation.addSubsubsection (p : Presentation) (title : Str) (createFrame : Bool) :
    Presentation :=
  { p with structureItems := p.structureItems ++ [(Level.SUBSUBSECTION, title, createFrame)] }

def Presentation.getThemeName (t : Theme) : Str :=
  match t with
  | Theme.BERKELEY => str "Berkeley"
  | Theme.MADRID => str "Madrid"
  | Theme.ANTIBES => str "Antibes"
  | Theme.COPENHAGEN => str "Copenhagen"
  | Theme.BERLIN => str "Berlin"
  | Theme.MANHATTAN => str "Manhattan"
  | Theme.WARSAW => str "Warsaw"
  | Theme.SINGAPORE => str "Singapore"
  | Theme.DEFAULT => str "default"

def Presentation.getColorThemeName (t : ColorTheme) : Str :=
  match t with
  | ColorTheme.BEAVER => str "beaver"
  | ColorTheme.CRANE => str "crane"
  | ColorTheme.DOLPHIN => str "dolphin"
  | ColorTheme.DOVE => str "dove"
  | ColorTheme.FLY => str "fly"
  | ColorTheme.SEAGULL => str "seagull"
  | ColorTheme.WOLVERINE => str "wolverine"
  | ColorTheme.DEFAULT => str "default"

def Presentation.getTransitionName (t : Transition) : Str :=
  match t with
  | Transition.FADE => str "transparent"
  | Transition.PUSH => str "push"
  | Transition.COVER => str "dynamic"
  | Transition.UNCOVER => str "invisible"
  | Transition.SPLIT => str "split"
  | Transition.BLINDS => str "dynamic"
  | Transition.WIPE => str "dynamic"
  | Transition.NONE => str "invisible"

def Presentation.getLevelCommand (level : Level) : Str :=
  match level with
  | Level.SECTION => str "\\section"
  | Level.SUBSECTION => str "\\subsection"
  | Level.SUBSUBSECTION => str "\\subsubsection"
  | _ => str "\\section"

/- The lstset configuration emitted by Presentation::generatePreamble. -/
def presentationLstset : Str :=
  str "\\lstset\x7b\n"
  ++ str "  basicstyle=\\small\\ttfamily,\n"
  ++ str "  breaklines=true,\n"
  ++ str "  inputencoding=utf8,\n"
  ++ str "  extendedchars=true,\n"
  ++ str "  literate=\x7bé\x7d\x7b\x7b\\\x27e\x7d\x7d1 \x7bè\x7d\x7b\x7b\\\x60e\x7d\x7d1 \x7bê\x7d\x7b\x7b\\^e\x7d\x7d1 \x7bë\x7d\x7b\x7b\\\x22e\x7d\x7d1\n"
  ++ str "           \x7bà\x7d\x7b\x7b\\\x60a\x7d\x7d1 \x7bâ\x7d\x7b\x7b\\^a\x7d\x7d1 \x7bä\x7d\x7b\x7b\\\x22a\x7d\x7d1\n"
  ++ str "           \x7bî\x7d\x7b\x7b\\^i\x7d\x7d1 \x7bï\x7d\x7b\x7b\\\x22i\x7d\x7d1\n"
  ++ str "           \x7bô\x7d\x7b\x7b\\^o\x7d\x7d1 \x7bö\x7d\x7b\x7b\\\x22o\x7d\x7d1\n"
  ++ str "           \x7bù\x7d\x7b\x7b\\\x60u\x7d\x7d1 \x7bû\x7d\x7b\x7b\\^u\x7d\x7d1 \x7bü\x7d\x7b\x7b\\\x22u\x7d\x7d1\n"
  ++ str "           \x7bç\x7d\x7b\x7b\\c c\x7d\x7d1\n"
  ++ str "\x7d\n\n"

def Presentation.generatePreamble (p : Presentation) : Str :=
  str "\\documentclass\x7bbeamer\x7d\n\n"
  ++ pkgLines p.doc.packages ++ str "\n"
  ++ presentationLstset
  ++ getLanguageConfiguration p.doc.language
  ++ (if p.theme ≠ Theme.DEFAULT then
        str "\\usetheme\x7b" ++ Presentation.getThemeName p.theme ++ str "\x7d\n" else [])
  ++ (if p.colorTheme ≠ ColorTheme.DEFAULT then
        str "\\usecolortheme\x7b" ++ Presentation.getColorThemeName p.colorTheme ++ str "\x7d\n"
      else [])
  ++ (if p.transition ≠ Transition.NONE then
        str "\\setbeamercovered\x7b" ++ Presentation.getTransitionName p.transition ++ str "\x7d\n"
      else [])
  ++ (if !p.showNavigation then str "\\setbeamertemplate\x7bnavigation symbols\x7d\x7b\x7d\n"
      else [])
  ++ (if p.doc.title.isEmpty then [] else str "\\title\x7b" ++ p.doc.title ++ str "\x7d\n")
  ++ (if p.subtitle.isEmpty then [] else str "\\subtitle\x7b" ++ p.subtitle ++ str "\x7d\n")
  ++ (if p.doc.author.isEmpty then [] else str "\\author\x7b" ++ p.doc.author ++ str "\x7d\n")
  ++ (if p.institute.isEmpty then [] else str "\\institute\x7b" ++ p.institute ++ str "\x7d\n")
  ++ (if p.doc.date.isEmpty then [] else str "\\date\x7b" ++ p.doc.date ++ str "\x7d\n")
  ++ str "\n"

/- One structural marker of Presentation::generateDocument step 3. -/
def structBlock (item : Level × Str × Bool) : Str :=
  Presentation.getLevelCommand item.1 ++ str "\x7b" ++ item.2.1 ++ str "\x7d\n\n"
  ++ (if item.2.2 then
        str "\\begin\x7bframe\x7d\n\\"
        ++ (match item.1 with
            | Level.SECTION => str "sectionpage"
            | Level.SUBSECTION => str "subsectionpage"
            | _ => str "begin\x7bcenter\x7d\\Large " ++ item.2.1 ++ str "\\end\x7bcenter\x7d")
        ++ str "\n\\end\x7bframe\x7d\n\n"
      else [])

/- One slide of Presentation::generateDocument step 4: the frame is declared
   fragile exactly when some content line contains the listing opener. -/
def slideBlock (slide : Str × List Str) : Str :=
  let needsFragile := slide.2.any (fun content => hasSub (str "\\begin\x7blstlisting\x7d") content)
  (if needsFragile then str "\\begin\x7bframe\x7d[fragile]\x7b" ++ slide.1 ++ str "\x7d\n"
   else str "\\begin\x7bframe\x7d\x7b" ++ slide.1 ++ str "\x7d\n")
  ++ (slide.2.map (fun content => content ++ str "\n")).flatten
  ++ str "\\end\x7bframe\x7d\n\n"

/- std::string::find for a single character. -/
def strFindChar (c : Char) : Str → Option Nat
  | [] => none
  | d :: t => if d = c then some 0 else (strFindChar c t).map (fun n => n + 1)

/- One generic Section of Presentation::generateDocument step 5: the title is
   re-extracted from the rendered text as the first brace group.  In the C++
   code, when the closing brace is missing (endPos == npos) the emitted
   remainder is substr(npos + 1) == the whole rendered text; on every
   Section::generate output the first closing brace follows the first opening
   brace, so the size_t subtraction endPos - startPos - 1 never wraps. -/
def sectionFrameBlock (s : Section) : Str :=
  let sectionContent := s.generate
  let startPos := strFindChar '\x7b' sectionContent
  let endPos := strFindChar '\x7d' sectionContent
  let title := match startPos, endPos with
    | some sp, some ep => (sectionContent.drop (sp + 1)).take (ep - sp - 1)
    | _, _ => str "Section"
  let contentAfter := match endPos with
    | some ep => sectionContent.drop (ep + 1)
    | none => sectionContent
  str "\\section\x7b" ++ title ++ str "\x7d\n\n"
  ++ str "\\begin\x7bframe\x7d\x7b" ++ title ++ str "\x7d\n"
  ++ sanitizeMathContent contentAfter
  ++ str "\\end\x7bframe\x7d\n\n"

/- One Environment of Presentation::generateDocument step 6. -/
def envFrameBlock (e : Env) : Str :=
  let envContent := e.generate
  (if hasSub (str "\\begin\x7blstlisting\x7d") envContent then
     str "\\begin\x7bframe\x7d[fragile]\n"
   else str "\\begin\x7bframe\x7d\n")
  ++ envContent ++ str "\n"
  ++ str "\\end\x7bframe\x7d\n\n"

def Presentation.generateDocument (p : Presentation) : Str :=
  str "\\begin\x7bdocument\x7d\n\n"
  ++ (if p.doc.title.isEmpty then []
      else str "\\begin\x7bframe\x7d\n" ++ str "\\titlepage\n" ++ str "\\end\x7bframe\x7d\n\n")
  ++ str "\\begin\x7bframe\x7d\x7bPlan\x7d\n" ++ str "\\tableofcontents\n"
  ++ str "\\end\x7bframe\x7d\n\n"
  ++ (p.doc.rawContent.map (fun c => c ++ str "\n\n")).flatten
  ++ (p.structureItems.map structBlock).flatten
  ++ (p.slides.map slideBlock).flatten
  ++ (p.doc.sections.map sectionFrameBlock).flatten
  ++ (p.doc.environments.map envFrameBlock).flatten
  ++ str "\\end\x7bdocument\x7d\n"

def Presentation.generate (p : Presentation) : Str :=
  p.generatePreamble ++ p.generateDocument

def Presentation.generateRun (p : Presentation) : Str × Presentation := (p.generate, p)

/- Further substring lemmas used by the claim proofs. -/

theorem isPre_iff (p s : Str) : isPre p s = true ↔ ∃ t, s = p ++ t := by
  induction p generalizing s with
  | nil => simp [isPre]
  | cons a as ih =>
    cases s with
    | nil =>
      simp [isPre]
    | cons b bs =>
      simp only [isPre, Bool.and_eq_true, beq_iff_eq, ih]
      constructor
      · rintro ⟨rfl, t, rfl⟩
        exact ⟨t, rfl⟩
      · rintro ⟨t, ht⟩
        simp only [List.cons_append, List.cons.injEq] at ht
        exact ⟨ht.1.symm, t, ht.2⟩

theorem hasSub_iff (p s : Str) : hasSub p s = true ↔ ∃ a b, s = a ++ (p ++ b) := by
  induction s with
  | nil =>
    simp only [hasSub, isPre_iff]
    constructor
    · rintro ⟨t, ht⟩
      exact ⟨[], t, ht⟩
    · rintro ⟨a, b, hab⟩
      have ha : a = [] := by
        cases a with
        | nil => rfl
        | cons x xs => simp at hab
      subst ha
      exact ⟨b, by simpa using hab⟩
  | cons c t ih =>
    simp only [hasSub, Bool.or_eq_true, isPre_iff, ih]
    constructor
    · rintro (⟨u, hu⟩ | ⟨a, b, hab⟩)
      · exact ⟨[], u, by simpa using hu⟩
      · exact ⟨c :: a, b, by simp [hab]⟩
    · rintro ⟨a, b, hab⟩
      cases a with
      | nil =>
        exact Or.inl ⟨b, by simpa using hab⟩
      | cons x xs =>
        simp only [List.cons_append, List.cons.injEq] at hab
        exact Or.inr ⟨xs, b, hab.2⟩

theorem hasSub_append_right (p s t : Str) (h : hasSub p s = true) :
    hasSub p (s ++ t) = true := by
  rcases (hasSub_iff p s).mp h with ⟨a, b, rfl⟩
  exact (hasSub_iff p _).mpr ⟨a, b ++ t, by simp⟩

theorem hasSub_mem_flatten_map {α : Type} (f : α → Str) (l : List α) (x : α) (hx : x ∈ l) :
    hasSub (f x) ((l.map f).flatten) = true := by
  rcases List.append_of_mem hx with ⟨a, b, rfl⟩
  exact (hasSub_iff _ _).mpr ⟨(a.map f).flatten, (b.map f).flatten, by simp⟩

theorem hasPre_extend (p s t : Str) (h : hasPre p s = true) : hasPre p (s ++ t) = true :=
  isPre_extend p s t h

/-- C2: generate() is a pure function of the current document state.  For the
base Document and each variant Article, Report, Book and Presentation, a call
returns generatePreamble() concatenated with generateDocument(), leaves the
state unchanged, and a second call on the resulting state returns
byte-identical output. -/
theorem C2_generate_pure_idempotent :
    (∀ d : Document, d.generateRun = (d.generatePreamble ++ d.generateDocument, d)
      ∧ (d.generateRun.2).generateRun.1 = d.generateRun.1)
    ∧ (∀ a : Article, a.generateRun = (a.generatePreamble ++ a.generateDocument, a)
      ∧ (a.generateRun.2).generateRun.1 = a.generateRun.1)
    ∧ (∀ r : Report, r.generateRun = (r.generatePreamble ++ r.generateDocument, r)
      ∧ (r.generateRun.2).generateRun.1 = r.generateRun.1)
    ∧ (∀ b : Book, b.generateRun = (b.generatePreamble ++ b.generateDocument, b)
      ∧ (b.generateRun.2).generateRun.1 = b.generateRun.1)
    ∧ (∀ p : Presentation, p.generateRun = (p.generatePreamble ++ p.generateDocument, p)
      ∧ (p.generateRun.2).generateRun.1 = p.generateRun.1) :=
  ⟨fun _ => ⟨rfl, rfl⟩, fun _ => ⟨rfl, rfl⟩, fun _ => ⟨rfl, rfl⟩,
   fun _ => ⟨rfl, rfl⟩, fun _ => ⟨rfl, rfl⟩⟩

/-- C8: for every Presentation and every slide, if some content line of the
slide contains the code-listing opening marker then the emitted frame is
declared with the fragile option; if no content line contains the marker the
frame is a plain frame carrying no fragile option; and the block emitted for
each attached slide occurs in the output of Presentation::generateDocument. -/
theorem C8_presentation_fragile (p : Presentation) (slide : Str × List Str) :
    ((∃ line ∈ slide.2, hasSub (str "\\begin\x7blstlisting\x7d") line = true) →
      hasPre (str "\\begin\x7bframe\x7d[fragile]\x7b") (slideBlock slide) = true)
    ∧ ((∀ line ∈ slide.2, hasSub (str "\\begin\x7blstlisting\x7d") line = false) →
      hasPre (str "\\begin\x7bframe\x7d\x7b") (slideBlock slide) = true
      ∧ hasPre (str "\\begin\x7bframe\x7d[fragile]") (slideBlock slide) = false)
    ∧ (slide ∈ p.slides →
      hasSub (slideBlock slide) (Presentation.generateDocument p) = true) := by
  refine ⟨?_, ?_, ?_⟩
  · intro hex
    have hany : slide.2.any (fun c => hasSub (str "\\begin\x7blstlisting\x7d") c) = true := by
      rw [List.any_eq_true]
      rcases hex with ⟨line, hmem, hline⟩
      exact ⟨line, hmem, hline⟩
    have hb : slideBlock slide
        = (str "\\begin\x7bframe\x7d[fragile]\x7b" ++ slide.1 ++ str "\x7d\n")
          ++ (slide.2.map (fun content => content ++ str "\n")).flatten
          ++ str "\\end\x7bframe\x7d\n\n" := by
      simp only [slideBlock, hany, if_pos]
    rw [hb]
    exact hasPre_extend _ _ _ (hasPre_extend _ _ _ (hasPre_extend _ _ _ (hasPre_append _ _)))
  · intro hall
    have hany : slide.2.any (fun c => hasSub (str "\\begin\x7blstlisting\x7d") c) = false := by
      rw [List.any_eq_false]
      intro line hmem
      simp [hall line hmem]
    have hb : slideBlock slide
        = (str "\\begin\x7bframe\x7d\x7b" ++ slide.1 ++ str "\x7d\n")
          ++ (slide.2.map (fun content => content ++ str "\n")).flatten
          ++ str "\\end\x7bframe\x7d\n\n" := by
      simp only [slideBlock, hany, Bool.false_eq_true, if_false]
    rw [hb]
    constructor
    · exact hasPre_extend _ _ _ (hasPre_extend _ _ _ (hasPre_extend _ _ _ (hasPre_append _ _)))
    · rfl
  · intro hmem
    have hseg := hasSub_mem_flatten_map slideBlock p.slides slide hmem
    unfold Presentation.generateDocument
    apply hasSub_append_right
    apply hasSub_append_right
    apply hasSub_append_right
    exact hasSub_append_left _ _ _ hseg

/-- C8, witness: the fragile and non-fragile cases of the theorem applied to
two concrete slides of a concrete presentation. -/
theorem C8_presentation_fragile_witness :
    hasPre (str "\\begin\x7bframe\x7d[fragile]\x7b")
      (slideBlock (str "Code", [str "\\begin\x7blstlisting\x7d x=1 \\end\x7blstlisting\x7d"]))
      = true
    ∧ hasPre (str "\\begin\x7bframe\x7d\x7b") (slideBlock (str "Plain", [str "hello"])) = true
    ∧ hasPre (str "\\begin\x7bframe\x7d[fragile]") (slideBlock (str "Plain", [str "hello"]))
      = false
    ∧ hasSub (slideBlock (str "Code", [str "\\begin\x7blstlisting\x7d x=1 \\end\x7blstlisting\x7d"]))
        (Presentation.generateDocument
          (((Presentation.new (str "T") (str "A") (str "D") Language.ENGLISH
              Theme.DEFAULT ColorTheme.DEFAULT).addSlide
              (str "Code") [str "\\begin\x7blstlisting\x7d x=1 \\end\x7blstlisting\x7d"]).addSlide
              (str "Plain") [str "hello"])) = true :=
  ⟨(C8_presentation_fragile
      (((Presentation.new (str "T") (str "A") (str "D") Language.ENGLISH
          Theme.DEFAULT ColorTheme.DEFAULT).addSlide
          (str "Code") [str "\\begin\x7blstlisting\x7d x=1 \\end\x7blstlisting\x7d"]).addSlide
          (str "Plain") [str "hello"])
      (str "Code", [str "\\begin\x7blstlisting\x7d x=1 \\end\x7blstlisting\x7d"])).1 (by decide),
   ((C8_presentation_fragile
      (((Presentation.new (str "T") (str "A") (str "D") Language.ENGLISH
          Theme.DEFAULT ColorTheme.DEFAULT).addSlide
          (str "Code") [str "\\begin\x7blstlisting\x7d x=1 \\end\x7blstlisting\x7d"]).addSlide
          (str "Plain") [str "hello"])
      (str "Plain", [str "hello"])).2.1 (by decide)).1,
   ((C8_presentation_fragile
      (((Presentation.new (str "T") (str "A") (str "D") Language.ENGLISH
          Theme.DEFAULT ColorTheme.DEFAULT).addSlide
          (str "Code") [str "\\begin\x7blstlisting\x7d x=1 \\end\x7blstlisting\x7d"]).addSlide
          (str "Plain") [str "hello"])
      (str "Plain", [str "hello"])).2.1 (by decide)).2,
   (C8_presentation_fragile
      (((Presentation.new (str "T") (str "A") (str "D") Language.ENGLISH
          Theme.DEFAULT ColorTheme.DEFAULT).addSlide
          (str "Code") [str "\\begin\x7blstlisting\x7d x=1 \\end\x7blstlisting\x7d"]).addSlide
          (str "Plain") [str "hello"])
      (str "Code", [str "\\begin\x7blstlisting\x7d x=1 \\end\x7blstlisting\x7d"])).2.2 (by decide)⟩

/- Lemmas about the Table row loop. -/

theorem tableRowCells_stop (numCols i : Nat) (row : List Str) (h : numCols ≤ i) :
    tableRowCells numCols i row = [] := by
  cases row with
  | nil => rfl
  | cons c t => simp [tableRowCells, Nat.not_lt.mpr h]

/- A row strictly shorter than the column count renders every cell followed by
   the separator, the last one included. -/
theorem tableRowCells_short (row : List Str) :
    ∀ i numCols, i + row.length < numCols →
      tableRowCells numCols i row = (row.map (fun c => c ++ str " & ")).flatten := by
  induction row with
  | nil => intro i numCols _; rfl
  | cons c t ih =>
    intro i numCols h
    simp only [List.length_cons] at h
    have h1 : i < numCols := by omega
    have h2 : i < numCols - 1 := by omega
    simp only [tableRowCells, if_pos h1, if_pos h2]
    rw [ih (i + 1) numCols (by omega)]
    simp

/- The cell list rendered with one separator between consecutive cells. -/
def sepCat : List Str → Str
  | [] => []
  | [c] => c
  | c :: g :: t => c ++ str " & " ++ sepCat (g :: t)

/- A row at least as long as the column count renders exactly the first
   numCols cells, separated but with no trailing separator. -/
theorem tableRowCells_trunc (row : List Str) :
    ∀ i numCols, i ≤ numCols → numCols ≤ i + row.length →
      tableRowCells numCols i row = sepCat (row.take (numCols - i)) := by
  induction row with
  | nil =>
    intro i numCols h1 h2
    simp only [List.length_nil, Nat.add_zero] at h2
    have : numCols = i := by omega
    subst this
    simp [tableRowCells, sepCat]
  | cons c t ih =>
    intro i numCols h1 h2
    simp only [List.length_cons] at h2
    by_cases hi : i < numCols
    · by_cases hsep : i < numCols - 1
      · simp only [tableRowCells, if_pos hi, if_pos hsep]
        rw [ih (i + 1) numCols (by omega) (by omega)]
        have hsplit : numCols - i = (numCols - (i + 1)) + 1 := by omega
        rw [hsplit]
        simp only [List.take_succ_cons]
        have hne : t.take (numCols - (i + 1)) ≠ [] := by
          have hpos : 0 < numCols - (i + 1) := by omega
          have hlen : 0 < t.length := by omega
          intro hnil
          rcases List.take_eq_nil_iff.mp hnil with h0 | h0
          · omega
          · rw [h0] at hlen; simp at hlen
        cases hg : t.take (numCols - (i + 1)) with
        | nil => exact absurd hg hne
        | cons g ts => simp [sepCat]
      · have hieq : i = numCols - 1 := by omega
        simp only [tableRowCells, if_pos hi, if_neg hsep]
        rw [tableRowCells_stop numCols (i + 1) t (by omega)]
        have htake : numCols - i = 1 := by omega
        rw [htake]
        simp [sepCat]
    · have : numCols = i := by omega
      subst this
      simp [tableRowCells, hi, sepCat]

theorem tableColSpec_count (n : Nat) : (tableColSpec n).count 'c' = n := by
  induction n with
  | zero => rfl
  | succ m ih =>
    have hstep : tableColSpec (m + 1) = str "|c" ++ tableColSpec m := by
      simp [tableColSpec, List.replicate_succ]
    rw [hstep, List.count_append, ih]
    have h1 : List.count 'c' (str "|c") = 1 := by decide
    rw [h1]
    omega

theorem hasSub_mid (x y z pre w : Str) :
    hasSub (x ++ y ++ z) (pre ++ x ++ y ++ (z ++ w)) = true :=
  (hasSub_iff _ _).mpr ⟨pre, w, by simp [List.append_assoc]⟩

/-- C5: for every Table with N headers, the tabular column specification holds
exactly one c column per header and occurs in the generated text as
\begin\x7btabular\x7d\x7b|c|c|...|\x7d; a row with at least N values renders exactly the
first N cells (so a row of N+2 values renders exactly N cells with the extras
discarded and no ragged ampersand count) with single ampersand separators; a
row with fewer than N values renders all its cells; and every row block,
header row included, is terminated by the literal " \\\\ \\hline\n". -/
theorem C5_table_columns_rows (t : Table) :
    (tableColSpec t.headers.length).count 'c' = t.headers.length
    ∧ hasSub (str "\\begin\x7btabular\x7d\x7b" ++ tableColSpec t.headers.length ++ str "|\x7d")
        t.generate = true
    ∧ (∀ row : List Str, t.headers.length ≤ row.length →
        tableRowCells t.headers.length 0 row = sepCat (row.take t.headers.length)
        ∧ (row.take t.headers.length).length = t.headers.length)
    ∧ (∀ row : List Str, row.length < t.headers.length →
        tableRowCells t.headers.length 0 row
          = (row.map (fun c => c ++ str " & ")).flatten
        ∧ (row.map (fun c => c ++ str " & ")).length = row.length)
    ∧ (∀ row : List Str,
        hasSuf (str " \\\\ \\hline\n") (tableRowBlock t.headers.length row) = true)
    ∧ hasSuf (str " \\\\ \\hline\n")
        (tableHeaderCells t.headers.length 0 t.headers ++ str " \\\\ \\hline\n") = true := by
  refine ⟨tableColSpec_count t.headers.length, ?_, ?_, ?_, ?_, hasSuf_term _ _⟩
  · unfold Table.generate
    apply hasSub_append_right
    apply hasSub_append_right
    apply hasSub_append_right
    apply hasSub_append_right
    apply hasSub_append_right
    apply hasSub_append_right
    apply hasSub_append_right
    have hx6 : str "|\x7d\n\\hline\n" = str "|\x7d" ++ str "\n\\hline\n" := rfl
    rw [hx6]
    exact hasSub_mid _ _ _ _ _
  · intro row hlen
    refine ⟨by simpa using tableRowCells_trunc row 0 t.headers.length (by omega) (by omega), ?_⟩
    rw [List.length_take]
    omega
  · intro row hlen
    exact ⟨tableRowCells_short row 0 t.headers.length (by omega), List.length_map _ _⟩
  · intro row
    exact hasSuf_term _ _

/-- C5, witness: the truncation branch of the theorem applied to a concrete
two-header table and a four-value row. -/
theorem C5_table_columns_rows_witness :
    tableRowCells (Table.new [str "A", str "B"] (str "h")).headers.length 0
        [str "x", str "y", str "z", str "w"]
      = sepCat ([str "x", str "y", str "z", str "w"].take
          (Table.new [str "A", str "B"] (str "h")).headers.length)
    ∧ ([str "x", str "y", str "z", str "w"].take
        (Table.new [str "A", str "B"] (str "h")).headers.length).length
      = (Table.new [str "A", str "B"] (str "h")).headers.length :=
  (C5_table_columns_rows (Table.new [str "A", str "B"] (str "h"))).2.2.1
    [str "x", str "y", str "z", str "w"] (by decide)

theorem flatten_sep_ends (row : List Str) (hne : row ≠ []) :
    ∃ pre, (row.map (fun c => c ++ str " & ")).flatten = pre ++ str " & " := by
  induction row with
  | nil => exact absurd rfl hne
  | cons c t ih =>
    cases t with
    | nil => exact ⟨c, by simp⟩
    | cons g ts =>
      rcases ih (by simp) with ⟨pre, hp⟩
      refine ⟨c ++ str " & " ++ pre, ?_⟩
      rw [List.map_cons, List.flatten_cons, hp]
      simp [List.append_assoc]

/-- C9: for every Table with N headers (N at least 2) and a non-empty row of
k values with k strictly below N, the rendered row line ends with a trailing
" & " separator emitted after the last cell, immediately before the
" \\\\ \\hline\n" terminator, because the separator condition compares the cell
index against the header count rather than the rendered cell count. -/
theorem C9_short_row_trailing_separator (numCols : Nat) (row : List Str)
    (_h2 : 2 ≤ numCols) (hne : row ≠ []) (hlt : row.length < numCols) :
    ∃ pre, tableRowBlock numCols row = pre ++ str " & " ++ str " \\\\ \\hline\n" := by
  have hc := tableRowCells_short row 0 numCols (by omega)
  rcases flatten_sep_ends row hne with ⟨pre, hp⟩
  refine ⟨pre, ?_⟩
  unfold tableRowBlock
  rw [hc, hp]

/-- C9, witness: the theorem applied to three columns and a one-value row. -/
theorem C9_short_row_trailing_separator_witness :
    ∃ pre, tableRowBlock 3 [str "a"] = pre ++ str " & " ++ str " \\\\ \\hline\n" :=
  C9_short_row_trailing_separator 3 [str "a"] (by omega) (by decide) (by decide)

theorem hasSuf_tail3 (pre a x b : Str) :
    hasSuf (a ++ x ++ b) (pre ++ a ++ x ++ b) = true := by
  have h : pre ++ a ++ x ++ b = pre ++ (a ++ x ++ b) := by simp [List.append_assoc]
  rw [h]
  exact hasSuf_term _ _

/-- C3, counterexample: a Table built by the constructor always carries a
position option, so its generate() output opens with "\begin\x7btable\x7d[h]" and
does not begin with the begin() output "\begin\x7btable\x7d\n" as claimed. -/
theorem C3_counterexample :
    hasPre (Env.begin (Env.table (Table.new [str "A"] (str "h"))))
        (Env.generate (Env.table (Table.new [str "A"] (str "h")))) = false
    ∧ Env.generate (Env.table (Table.new [str "A"] (str "h")))
      = str "\\begin\x7btable\x7d[h]\n\\centering\n\\begin\x7btabular\x7d\x7b|c|\x7d\n\\hline\nA \\\\ \\hline\n\\end\x7btabular\x7d\n\\end\x7btable\x7d\n" :=
  ⟨rfl, rfl⟩

/-- C3 (amended): every Environment variant's generate() output ends with its
end() output, so no variant emits an unterminated block; Equation, List and
Algorithm generate() always begins with the begin() output, and
TheoremEnvironment does whenever no title is set (with a title the opening is
"\begin\x7bname\x7d[title]"); Table and Figure begin with "\begin\x7btable\x7d" resp.
"\begin\x7bfigure\x7d" immediately followed by the bracketed position option, i.e.
begin() with its trailing newline replaced by the option bracket. -/
theorem C3_environment_blocks :
    (∀ e : Env, hasSuf e.endCmd e.generate = true)
    ∧ (∀ e : Equation, hasPre (envBegin e.name) e.generate = true)
    ∧ (∀ l : ListEnv, hasPre (envBegin l.name) l.generate = true)
    ∧ (∀ a : Algorithm, hasPre (envBegin (str "algorithm")) a.generate = true)
    ∧ (∀ th : TheoremEnvironment, th.title = [] →
        hasPre (envBegin th.name) th.generate = true)
    ∧ (∀ t : Table, hasPre (str "\\begin\x7btable\x7d") t.generate = true)
    ∧ (∀ f : Figure, hasPre (str "\\begin\x7bfigure\x7d") f.generate = true) := by
  refine ⟨?_, ?_, ?_, ?_, ?_, ?_, ?_⟩
  · intro e
    cases e with
    | table t =>
      show hasSuf (envEnd (str "table")) (Table.generate t) = true
      rw [show envEnd (str "table") = str "\\end\x7btable\x7d\n" from rfl]
      unfold Table.generate
      exact hasSuf_term _ _
    | figure f =>
      show hasSuf (envEnd (str "figure")) (Figure.generate f) = true
      rw [show envEnd (str "figure") = str "\\end\x7bfigure\x7d\n" from rfl]
      unfold Figure.generate
      exact hasSuf_term _ _
    | equation e =>
      show hasSuf (envEnd e.name) (Equation.generate e) = true
      unfold Equation.generate
      exact hasSuf_term _ _
    | list l =>
      show hasSuf (envEnd l.name) (ListEnv.generate l) = true
      unfold ListEnv.generate
      exact hasSuf_term _ _
    | algorithm a =>
      show hasSuf (envEnd (str "algorithm")) (Algorithm.generate a) = true
      rw [show envEnd (str "algorithm") = str "\\end\x7balgorithm\x7d\n" from rfl]
      unfold Algorithm.generate
      exact hasSuf_term _ _
    | theoremEnv th =>
      show hasSuf (envEnd th.name) (TheoremEnvironment.generate th) = true
      unfold TheoremEnvironment.generate envEnd
      exact hasSuf_tail3 _ _ _ _
  · intro e
    unfold Equation.generate
    repeat first
      | exact hasPre_append _ _
      | apply hasPre_extend
  · intro l
    unfold ListEnv.generate
    repeat first
      | exact hasPre_append _ _
      | apply hasPre_extend
  · intro a
    rw [show envBegin (str "algorithm") = str "\\begin\x7balgorithm\x7d\n" from rfl]
    unfold Algorithm.generate
    repeat first
      | exact hasPre_append _ _
      | apply hasPre_extend
  · intro th h
    have hgen : th.generate
        = envBegin th.name
          ++ (th.content ++ str "\n" ++ (str "\\end\x7b" ++ th.name ++ str "\x7d\n")) := by
      unfold TheoremEnvironment.generate envBegin
      rw [h]
      rw [show str "\x7d\n" = str "\x7d" ++ str "\n" from rfl]
      simp [List.append_assoc]
    rw [hgen]
    exact hasPre_append _ _
  · intro t
    unfold Table.generate
    repeat first
      | exact hasPre_append _ _
      | apply hasPre_extend
  · intro f
    unfold Figure.generate
    repeat first
      | exact hasPre_append _ _
      | apply hasPre_extend

/-- C3, witness: the titleless-TheoremEnvironment branch of the amended
theorem applied to a concrete theorem environment. -/
theorem C3_environment_blocks_witness :
    hasPre (envBegin (TheoremEnvironment.new ThmType.LEMMA (str "x = x") []).name)
      (TheoremEnvironment.new ThmType.LEMMA (str "x = x") []).generate = true :=
  C3_environment_blocks.2.2.2.2.1 (TheoremEnvironment.new ThmType.LEMMA (str "x = x") [])
    (by decide)

/-- C10: for every Article whose title is the empty string, the title block of
the generated body is empty even when keywords were added, because the keyword
emission is nested inside the non-empty-title check; consequently the body
skips both \maketitle and the \keywords line, and an article that additionally
has no abstract, table of contents, raw content, sections, environments or
citations renders a body containing no \maketitle and no \keywords command at
all. -/
theorem C10_empty_title (a : Article) (h : a.doc.title = []) :
    a.titleBlock = []
    ∧ a.generateDocument
      = str "\\begin\x7bdocument\x7d\n\n"
        ++ (if a.abstract.isEmpty then []
            else str "\\begin\x7babstract\x7d\n" ++ a.abstract ++ str "\n\\end\x7babstract\x7d\n\n")
        ++ (if a.includeTableOfContents then str "\\tableofcontents\n\\clearpage\n\n" else [])
        ++ (a.doc.rawContent.map (fun c => c ++ str "\n\n")).flatten
        ++ (a.doc.sections.map (fun s => s.generate ++ str "\n")).flatten
        ++ (a.doc.environments.map (fun e => e.generate ++ str "\n")).flatten
        ++ (if !a.doc.usedCitations.isEmpty then
              a.doc.bibliography.getIncludeCommands ++ str "\n" else [])
        ++ str "\\end\x7bdocument\x7d\n"
    ∧ (a.abstract = [] → a.includeTableOfContents = false → a.doc.rawContent = [] →
        a.doc.sections = [] → a.doc.environments = [] → a.doc.usedCitations = [] →
        a.generateDocument = str "\\begin\x7bdocument\x7d\n\n" ++ str "\\end\x7bdocument\x7d\n"
        ∧ hasSub (str "\\maketitle") a.generateDocument = false
        ∧ hasSub (str "\\keywords\x7b") a.generateDocument = false) := by
  have htb : a.titleBlock = [] := by
    simp [Article.titleBlock, h]
  refine ⟨htb, ?_, ?_⟩
  · unfold Article.generateDocument
    rw [htb]
    simp
  · intro h1 h2 h3 h4 h5 h6
    have hg : a.generateDocument = str "\\begin\x7bdocument\x7d\n\n" ++ str "\\end\x7bdocument\x7d\n" := by
      unfold Article.generateDocument
      rw [htb]
      simp [h1, h2, h3, h4, h5, h6]
    rw [hg]
    exact ⟨rfl, rfl, rfl⟩

/-- C10, witness: the theorem applied to a keyword-carrying article whose
title is empty and whose remaining content is empty. -/
theorem C10_empty_title_witness :
    ((Article.new [] (str "A") (str "D") Language.ENGLISH).addKeyword (str "k1")).titleBlock
      = []
    ∧ hasSub (str "\\maketitle")
        ((Article.new [] (str "A") (str "D") Language.ENGLISH).addKeyword
          (str "k1")).generateDocument = false
    ∧ hasSub (str "\\keywords\x7b")
        ((Article.new [] (str "A") (str "D") Language.ENGLISH).addKeyword
          (str "k1")).generateDocument = false :=
  ⟨(C10_empty_title ((Article.new [] (str "A") (str "D") Language.ENGLISH).addKeyword
      (str "k1")) rfl).1,
   ((C10_empty_title ((Article.new [] (str "A") (str "D") Language.ENGLISH).addKeyword
      (str "k1")) rfl).2.2 rfl rfl rfl rfl rfl rfl).2.1,
   ((C10_empty_title ((Article.new [] (str "A") (str "D") Language.ENGLISH).addKeyword
      (str "k1")) rfl).2.2 rfl rfl rfl rfl rfl rfl).2.2⟩

/- A Report with one registered citation and an attached bibliography: the
   input refuting C1.  cite() records the key; setBibliography attaches the
   bibliography object. -/
def reportEx : Report :=
  let r0 := Report.new (str "T") (str "A") (str "D") Language.ENGLISH
  { r0 with
    doc := ((r0.doc.setBibliography
      (Bibliography.newExternal (str "refs") BibStyle.IEEE)).cite (str "smith")).1 }

/-- C1, counterexample: a Report with a registered citation key and an
attached Bibliography whose generated body nevertheless contains neither the
output of getIncludeCommands nor any \bibliographystyle command, because
Report::generateDocument has no bibliography block. -/
theorem C1_counterexample :
    reportEx.doc.usedCitations = [str "smith"]
    ∧ hasSub reportEx.doc.bibliography.getIncludeCommands
        (Report.generateDocument reportEx) = false
    ∧ hasSub (str "\\bibliographystyle") (Report.generateDocument reportEx) = false :=
  ⟨by decide, by decide, by decide⟩

/-- C1 (amended): the base Document and Article emit the bibliography
inclusion commands if and only if at least one citation key was registered:
with a citation recorded the output of getIncludeCommands occurs in the
generated body, and with zero citations the body does not depend on the
attached Bibliography at all (no include segment is emitted); the Report, Book
and Presentation bodies are independent of both the recorded citations and the
bibliography, and never emit the inclusion commands. -/
theorem C1_bibliography_gating :
    (∀ d : Document, d.usedCitations ≠ [] →
      hasSub d.bibliography.getIncludeCommands d.generateDocument = true)
    ∧ (∀ d : Document, ∀ b : Bibliography, d.usedCitations = [] →
      Document.generateDocument { d with bibliography := b } = d.generateDocument)
    ∧ (∀ a : Article, a.doc.usedCitations ≠ [] →
      hasSub a.doc.bibliography.getIncludeCommands a.generateDocument = true)
    ∧ (∀ a : Article, ∀ b : Bibliography, a.doc.usedCitations = [] →
      Article.generateDocument { a with doc := { a.doc with bibliography := b } }
        = a.generateDocument)
    ∧ (∀ r : Report, ∀ cits : List Str, ∀ b : Bibliography,
      Report.generateDocument
          { r with doc := { r.doc with usedCitations := cits, bibliography := b } }
        = r.generateDocument)
    ∧ (∀ bk : Book, ∀ cits : List Str, ∀ b : Bibliography,
      Book.generateDocument
          { bk with doc := { bk.doc with usedCitations := cits, bibliography := b } }
        = bk.generateDocument)
    ∧ (∀ p : Presentation, ∀ cits : List Str, ∀ b : Bibliography,
      Presentation.generateDocument
          { p with doc := { p.doc with usedCitations := cits, bibliography := b } }
        = p.generateDocument) := by
  refine ⟨?_, ?_, ?_, ?_, fun r cits b => rfl, fun bk cits b => rfl, fun p cits b => rfl⟩
  · intro d h
    unfold Document.generateDocument
    cases hc : d.usedCitations with
    | nil => exact absurd hc h
    | cons x xs =>
      simp only [List.isEmpty_cons, Bool.not_false, if_true]
      apply hasSub_append_right
      exact hasSub_append_left _ _ _ (hasSub_here _ _)
  · intro d b h
    unfold Document.generateDocument
    simp [h]
  · intro a h
    unfold Article.generateDocument
    cases hc : a.doc.usedCitations with
    | nil => exact absurd hc h
    | cons x xs =>
      simp only [List.isEmpty_cons, Bool.not_false, if_true]
      apply hasSub_append_right
      exact hasSub_append_left _ _ _ (hasSub_here _ _)
  · intro a b h
    unfold Article.generateDocument
    simp [Article.titleBlock, h]

/-- C1, witness: the Document-level inclusion direction of the amended theorem
applied to a cited base Document, and the zero-citation independence direction
applied to a fresh Document. -/
theorem C1_bibliography_gating_witness :
    hasSub ((((Document.new DocumentType.ARTICLE (str "T") (str "A") (str "D")
          Language.ENGLISH).cite (str "k")).1).bibliography.getIncludeCommands)
      ((((Document.new DocumentType.ARTICLE (str "T") (str "A") (str "D")
          Language.ENGLISH).cite (str "k")).1).generateDocument) = true
    ∧ Document.generateDocument
        { Document.new DocumentType.ARTICLE (str "T") (str "A") (str "D") Language.ENGLISH
          with bibliography := Bibliography.newExternal (str "refs") BibStyle.IEEE }
      = (Document.new DocumentType.ARTICLE (str "T") (str "A") (str "D")
          Language.ENGLISH).generateDocument :=
  ⟨C1_bibliography_gating.1
      (((Document.new DocumentType.ARTICLE (str "T") (str "A") (str "D")
        Language.ENGLISH).cite (str "k")).1) (by decide),
   C1_bibliography_gating.2.1
      (Document.new DocumentType.ARTICLE (str "T") (str "A") (str "D") Language.ENGLISH)
      (Bibliography.newExternal (str "refs") BibStyle.IEEE) (by decide)⟩

/- Lemmas about the sorted package map, towards C6. -/

def pkgSorted (m : List (Str × Str)) : Prop :=
  List.Pairwise (fun p q => strLt p.1 q.1 = true) m

instance (m : List (Str × Str)) : Decidable (pkgSorted m) := by
  unfold pkgSorted
  infer_instance

theorem mapInsert_mem (k v : Str) (m : List (Str × Str)) (q : Str × Str)
    (h : q ∈ mapInsert k v m) : q = (k, v) ∨ q ∈ m := by
  induction m with
  | nil =>
    rw [mapInsert] at h
    exact Or.inl (List.mem_singleton.mp h)
  | cons p t ih =>
    obtain ⟨k2, v2⟩ := p
    rw [mapInsert] at h
    split at h
    · rcases List.mem_cons.mp h with h | h
      · exact Or.inl h
      · exact Or.inr h
    · split at h
      · rcases List.mem_cons.mp h with h | h
        · exact Or.inr (List.mem_cons.mpr (Or.inl h))
        · rcases ih h with h | h
          · exact Or.inl h
          · exact Or.inr (List.mem_cons.mpr (Or.inr h))
      · rcases List.mem_cons.mp h with h | h
        · exact Or.inl h
        · exact Or.inr (List.mem_cons.mpr (Or.inr h))

theorem mapInsert_sorted (k v : Str) (m : List (Str × Str)) (h : pkgSorted m) :
    pkgSorted (mapInsert k v m) := by
  unfold pkgSorted at h ⊢
  induction m with
  | nil => simp [mapInsert]
  | cons p t ih =>
    obtain ⟨k2, v2⟩ := p
    rw [List.pairwise_cons] at h
    obtain ⟨hall, htail⟩ := h
    rw [mapInsert]
    split
    case isTrue h1 =>
      rw [List.pairwise_cons]
      constructor
      · intro q hq
        rcases List.mem_cons.mp hq with hq | hq
        · rw [hq]
          exact h1
        · exact strLt_trans _ _ _ h1 (hall q hq)
      · rw [List.pairwise_cons]
        exact ⟨hall, htail⟩
    case isFalse h1 =>
      split
      case isTrue h2 =>
        rw [List.pairwise_cons]
        constructor
        · intro q hq
          rcases mapInsert_mem k v t q hq with hq | hq
          · rw [hq]
            exact h2
          · exact hall q hq
        · exact ih htail
      case isFalse h2 =>
        have hk : k = k2 := strLt_eq_of_not k k2 (by simpa using h1) (by simpa using h2)
        rw [List.pairwise_cons]
        exact ⟨fun q hq => hk ▸ hall q hq, htail⟩

theorem filter_key_nil (k : Str) (m : List (Str × Str))
    (hall : ∀ q ∈ m, strLt k q.1 = true) :
    m.filter (fun p => p.1 == k) = [] := by
  induction m with
  | nil => rfl
  | cons p t ih =>
    have hne : (p.1 == k) = false := by
      rw [beq_eq_false_iff_ne]
      intro hq
      have hlt := hall p (List.mem_cons_self p t)
      rw [hq, strLt_irrefl] at hlt
      exact Bool.false_ne_true hlt
    rw [List.filter_cons, hne]
    simp only [Bool.false_eq_true, if_false]
    exact ih (fun q hq => hall q (List.mem_cons_of_mem p hq))

theorem mapInsert_filter_self (k v : Str) (m : List (Str × Str)) (h : pkgSorted m) :
    (mapInsert k v m).filter (fun p => p.1 == k) = [(k, v)] := by
  induction m with
  | nil => simp [mapInsert]
  | cons p t ih =>
    obtain ⟨k2, v2⟩ := p
    rw [pkgSorted, List.pairwise_cons] at h
    obtain ⟨hall, htail⟩ := h
    rw [mapInsert]
    split
    case isTrue h1 =>
      have hne : (k2 == k) = false := by
        rw [beq_eq_false_iff_ne]
        intro hq
        rw [hq, strLt_irrefl] at h1
        exact Bool.false_ne_true h1
      rw [List.filter_cons, List.filter_cons, hne]
      simp only [beq_self_eq_true, if_true, Bool.false_eq_true, if_false]
      rw [filter_key_nil k t (fun q hq => strLt_trans _ _ _ h1 (hall q hq))]
    case isFalse h1 =>
      split
      case isTrue h2 =>
        have hne : (k2 == k) = false := by
          rw [beq_eq_false_iff_ne]
          intro hq
          rw [hq, strLt_irrefl] at h2
          exact Bool.false_ne_true h2
        rw [List.filter_cons, hne]
        simp only [Bool.false_eq_true, if_false]
        exact ih htail
      case isFalse h2 =>
        have hk : k = k2 := strLt_eq_of_not k k2 (by simpa using h1) (by simpa using h2)
        rw [List.filter_cons]
        simp only [beq_self_eq_true, if_true]
        rw [filter_key_nil k t (fun q hq => hk ▸ hall q hq)]

theorem mapInsert_filter_other (k v name : Str) (m : List (Str × Str)) (hk : k ≠ name) :
    (mapInsert k v m).filter (fun p => p.1 == name)
      = m.filter (fun p => p.1 == name) := by
  induction m with
  | nil => simp [mapInsert, List.filter_cons, beq_eq_false_iff_ne.mpr hk]
  | cons p t ih =>
    obtain ⟨k2, v2⟩ := p
    rw [mapInsert]
    split
    case isTrue h1 =>
      rw [List.filter_cons, beq_eq_false_iff_ne.mpr hk]
      simp only [Bool.false_eq_true, if_false]
    case isFalse h1 =>
      split
      case isTrue h2 =>
        rw [List.filter_cons, List.filter_cons, ih]
      case isFalse h2 =>
        have hkeq : k = k2 := strLt_eq_of_not k k2 (by simpa using h1) (by simpa using h2)
        rw [List.filter_cons, List.filter_cons, beq_eq_false_iff_ne.mpr hk,
          beq_eq_false_iff_ne.mpr (hkeq ▸ hk)]
        simp only [Bool.false_eq_true, if_false]

/- The options of the last addPackage call for a given name in a call
   sequence, if any. -/
def lastOptsFor (name : Str) : List (Str × Str) → Option Str
  | [] => none
  | op :: rest =>
    match lastOptsFor name rest with
    | some v => some v
    | none => if op.1 == name then some op.2 else none

theorem foldl_mapInsert_filter (name : Str) (ops : List (Str × Str)) :
    ∀ m : List (Str × Str), pkgSorted m →
      pkgSorted (ops.foldl (fun acc op => mapInsert op.1 op.2 acc) m)
      ∧ (∀ v, lastOptsFor name ops = some v →
          (ops.foldl (fun acc op => mapInsert op.1 op.2 acc) m).filter
            (fun p => p.1 == name) = [(name, v)])
      ∧ (lastOptsFor name ops = none →
          (ops.foldl (fun acc op => mapInsert op.1 op.2 acc) m).filter
            (fun p => p.1 == name) = m.filter (fun p => p.1 == name)) := by
  induction ops with
  | nil =>
    intro m hm
    exact ⟨hm, fun v hv => by simp [lastOptsFor] at hv, fun _ => rfl⟩
  | cons op rest ih =>
    intro m hm
    obtain ⟨k0, v0⟩ := op
    have hm2 : pkgSorted (mapInsert k0 v0 m) := mapInsert_sorted k0 v0 m hm
    obtain ⟨ihs, ihsome, ihnone⟩ := ih (mapInsert k0 v0 m) hm2
    refine ⟨ihs, ?_, ?_⟩
    · intro v hv
      rw [lastOptsFor] at hv
      cases hr : lastOptsFor name rest with
      | some w =>
        rw [hr] at hv
        have hw : w = v := by simpa using hv
        exact hw ▸ ihsome w hr
      | none =>
        rw [hr] at hv
        simp only at hv
        by_cases hk : (k0 == name) = true
        · rw [if_pos hk] at hv
          have hkeq : k0 = name := by simpa using hk
          have hveq : v0 = v := by
            simpa using hv
          rw [List.foldl_cons]
          rw [ihnone hr]
          subst hkeq hveq
          exact mapInsert_filter_self k0 v0 m hm
        · rw [if_neg (by simpa using hk)] at hv
          simp at hv
    · intro hnone
      rw [lastOptsFor] at hnone
      cases hr : lastOptsFor name rest with
      | some w => rw [hr] at hnone; simp at hnone
      | none =>
        rw [hr] at hnone
        simp only at hnone
        by_cases hk : (k0 == name) = true
        · rw [if_pos hk] at hnone; simp at hnone
        · have hkne : k0 ≠ name := by simpa using hk
          rw [List.foldl_cons, ihnone hr]
          exact mapInsert_filter_other k0 v0 name m hkne

/- Folding addPackage calls over a Document only touches its package map. -/
theorem foldl_addPackage_packages (ops : List (Str × Str)) :
    ∀ d : Document,
      (ops.foldl (fun acc op => Document.addPackage acc op.1 op.2) d).packages
        = ops.foldl (fun m op => mapInsert op.1 op.2 m) d.packages := by
  induction ops with
  | nil => intro d; rfl
  | cons op rest ih =>
    intro d
    rw [List.foldl_cons, List.foldl_cons, ih]
    rfl

/-- C6: for every Document with a duplicate-free sorted package map and every
sequence of addPackage calls containing the package name, the resulting
package map holds exactly one entry for that name, carrying the options of the
last addPackage call for it, and the generated preamble contains the single
corresponding \usepackage line. -/
theorem C6_package_dedup (d : Document) (name : Str) (ops : List (Str × Str)) (v : Str)
    (hsorted : pkgSorted d.packages)
    (hlast : lastOptsFor name ops = some v) :
    (ops.foldl (fun acc op => Document.addPackage acc op.1 op.2) d).packages.filter
        (fun p => p.1 == name) = [(name, v)]
    ∧ hasSub (pkgLine (name, v))
        (Document.generatePreamble
          (ops.foldl (fun acc op => Document.addPackage acc op.1 op.2) d)) = true := by
  have hfilter :
      (ops.foldl (fun acc op => Document.addPackage acc op.1 op.2) d).packages.filter
        (fun p => p.1 == name) = [(name, v)] := by
    rw [foldl_addPackage_packages]
    exact (foldl_mapInsert_filter name ops d.packages hsorted).2.1 v hlast
  refine ⟨hfilter, ?_⟩
  have hmem : (name, v) ∈
      (ops.foldl (fun acc op => Document.addPackage acc op.1 op.2) d).packages := by
    apply List.mem_of_mem_filter (p := fun p => p.1 == name)
    rw [hfilter]
    exact List.mem_singleton.mpr rfl
  have hseg : hasSub (pkgLine (name, v))
      (pkgLines (ops.foldl (fun acc op => Document.addPackage acc op.1 op.2) d).packages)
      = true :=
    hasSub_mem_flatten_map pkgLine _ _ hmem
  unfold Document.generatePreamble
  apply hasSub_append_right
  apply hasSub_append_right
  apply hasSub_append_right
  apply hasSub_append_right
  apply hasSub_append_right
  apply hasSub_append_right
  apply hasSub_append_right
  apply hasSub_append_right
  apply hasSub_append_right
  apply hasSub_append_right
  exact hasSub_append_left _ _ _ hseg

/-- C6, witness: registering babel twice, with french and then english
options, on a fresh article-class Document leaves exactly one babel entry
carrying the english options, and one matching \usepackage line in the
preamble. -/
theorem C6_package_dedup_witness :
    ([(str "babel", str "french"), (str "babel", str "english")].foldl
        (fun acc op => Document.addPackage acc op.1 op.2)
        (Document.new DocumentType.ARTICLE (str "T") (str "A") (str "D")
          Language.ENGLISH)).packages.filter
        (fun p => p.1 == str "babel") = [(str "babel", str "english")]
    ∧ hasSub (pkgLine (str "babel", str "english"))
        (Document.generatePreamble
          ([(str "babel", str "french"), (str "babel", str "english")].foldl
            (fun acc op => Document.addPackage acc op.1 op.2)
            (Document.new DocumentType.ARTICLE (str "T") (str "A") (str "D")
              Language.ENGLISH))) = true :=
  C6_package_dedup
    (Document.new DocumentType.ARTICLE (str "T") (str "A") (str "D") Language.ENGLISH)
    (str "babel") [(str "babel", str "french"), (str "babel", str "english")]
    (str "english") (by decide) (by decide)

/- The Document constructor only fills the package map: the content
   collections start empty, whatever the language. -/
theorem documentNew_content_empty (ty : DocumentType) (title author date : Str)
    (lang : Language) :
    (Document.new ty title author date lang).sections = []
    ∧ (Document.new ty title author date lang).environments = []
    ∧ (Document.new ty title author date lang).rawContent = []
    ∧ (Document.new ty title author date lang).usedCitations = [] := by
  cases lang <;> simp [Document.new, Document.addPackage]

/-- C7: addChapterToPart attaches the chapter to the most recently added part
(the current part index set by addPart), and calling it before any part has
been added is a no-op; consequently a Book with two parts and one chapter
attached while the first part was current renders \part for both parts in
order, with the chapter rendered only under the first part block and nothing
between the second \part block and the end of the document. -/
theorem C7_book_chapter_attachment :
    (∀ bk : Book, ∀ ch : Section, bk.parts = [] → bk.addChapterToPart ch = bk)
    ∧ (∀ bk : Book, ∀ t : Str, (bk.addPart t).parts = bk.parts ++ [t]
        ∧ (bk.addPart t).currentPart = Int.ofNat bk.parts.length)
    ∧ (∀ bk : Book, ∀ ch : Section, 0 ≤ bk.currentPart →
        bk.currentPart < Int.ofNat bk.parts.length →
        (bk.addChapterToPart ch).partChapters
          = natMapAppend bk.currentPart.toNat ch bk.partChapters)
    ∧ (∀ title author date : Str, ∀ lang : Language, ∀ p1 p2 : Str, ∀ ch : Section,
        Book.generateDocument
            ((((Book.new title author date lang).addPart p1).addChapterToPart ch).addPart p2)
          = str "\\begin\x7bdocument\x7d\n\n" ++ str "\\maketitle\n\n"
            ++ (str "\\part\x7b" ++ p1 ++ str "\x7d\n\n" ++ (ch.generate ++ str "\n"))
            ++ (str "\\part\x7b" ++ p2 ++ str "\x7d\n\n")
            ++ str "\\end\x7bdocument\x7d\n") := by
  refine ⟨?_, ?_, ?_, ?_⟩
  · intro bk ch h
    unfold Book.addChapterToPart
    rw [h]
    simp
  · intro bk t
    unfold Book.addPart
    constructor
    · rfl
    · simp
  · intro bk ch h1 h2
    unfold Book.addChapterToPart
    rw [if_pos ⟨h1, h2⟩]
  · intro title author date lang p1 p2 ch
    obtain ⟨hs, he, hr, hc⟩ := documentNew_content_empty DocumentType.BOOK title author date lang
    have hb : ((((Book.new title author date lang).addPart p1).addChapterToPart ch).addPart p2)
        = { Book.new title author date lang with
            parts := [p1, p2], partChapters := [(0, [ch])], currentPart := 1 } := by
      unfold Book.new Book.addPart Book.addChapterToPart
      simp [natMapAppend]
    rw [hb]
    unfold Book.generateDocument Book.partBlock
    simp [Book.new, Document.addPackage, hs, he, hr, natMapFind, List.range_succ]

/-- C7, witness: the no-op branch applied to a freshly built Book with no
parts, and the scenario equation at concrete titles. -/
theorem C7_book_chapter_attachment_witness :
    (Book.new (str "T") (str "A") (str "D") Language.ENGLISH).addChapterToPart
        { title := str "C", level := Level.CHAPTER, content := [] }
      = Book.new (str "T") (str "A") (str "D") Language.ENGLISH
    ∧ Book.generateDocument
        ((((Book.new (str "T") (str "A") (str "D") Language.ENGLISH).addPart
            (str "P1")).addChapterToPart
            { title := str "C", level := Level.CHAPTER, content := [] }).addPart (str "P2"))
      = str "\\begin\x7bdocument\x7d\n\n" ++ str "\\maketitle\n\n"
        ++ (str "\\part\x7b" ++ str "P1" ++ str "\x7d\n\n"
          ++ (Section.generate { title := str "C", level := Level.CHAPTER, content := [] }
            ++ str "\n"))
        ++ (str "\\part\x7b" ++ str "P2" ++ str "\x7d\n\n")
        ++ str "\\end\x7bdocument\x7d\n" :=
  ⟨C7_book_chapter_attachment.1 (Book.new (str "T") (str "A") (str "D") Language.ENGLISH)
      { title := str "C", level := Level.CHAPTER, content := [] } (by decide),
   C7_book_chapter_attachment.2.2.2 (str "T") (str "A") (str "D") Language.ENGLISH
      (str "P1") (str "P2") { title := str "C", level := Level.CHAPTER, content := [] }⟩

end LatexGen
